import Mathlib

/-!
Shallow embedding of the chess rules engine found under
src/src-tauri/src/chess_engine (types.rs, board.rs, position.rs, move_gen.rs,
validation.rs, fen.rs, game.rs, and the perft helper in tests.rs).

Conventions used throughout:
* Rust u8 / u32 / u64 values are modelled as Nat; wherever wrap-around can
  occur the reduction modulo 2^w is written explicitly.
* Rust Vec push / pop at the back are modelled as List append of a singleton
  and List.dropLast, keeping the element order of the source.
* Rust functions taking references and mutating state are modelled as pure
  functions returning the new state; fallible functions return Except.
* Strings are handled through their character lists (String.data), and the
  text-splitting helpers of the Rust standard library are modelled by
  explicit recursive functions on character lists.
-/

set_option maxRecDepth 20000

/-- Color enum from types.rs. -/
inductive Color : Type
  | White
  | Black
deriving DecidableEq, Repr

/-- Color::opposite from types.rs. -/
def Color.opposite : Color → Color
  | Color.White => Color.Black
  | Color.Black => Color.White

/-- Piece enum from types.rs. -/
inductive Piece : Type
  | Pawn
  | Knight
  | Bishop
  | Rook
  | Queen
  | King
deriving DecidableEq, Repr

/-- Square from types.rs: a u8 index that the module keeps in [0, 64)
(the field is private and every constructor checks the bound). -/
structure Square : Type where
  val : Fin 64
deriving DecidableEq, Repr

/-- The raw index of a square (Square::index). -/
def Square.index (s : Square) : Nat := s.val.val

/-- Square::new. -/
def Square.new (i : Nat) : Option Square :=
  if h : i < 64 then some ⟨⟨i, h⟩⟩ else none

/-- Square::rank. -/
def Square.rank (s : Square) : Nat := s.index / 8

/-- Square::file. -/
def Square.file (s : Square) : Nat := s.index % 8

/-- Square::from_rank_file (the bound rank * 8 + file < 64 follows from the
two Rust guards, and Square::new checks it again). -/
def Square.from_rank_file (rank file : Nat) : Option Square :=
  if rank < 8 ∧ file < 8 then Square.new (rank * 8 + file) else none

/-- Shorthand for building a square from a literal index (the Rust code
writes Square::new(i).unwrap() at such places). -/
def sqIdx (i : Fin 64) : Square := ⟨i⟩

/-- Move from types.rs.  The Rust fields named from and to are spelled
from' and to' here because both are reserved words in Lean. -/
structure Move : Type where
  from' : Square
  to' : Square
  promotion : Option Piece
  is_castling : Bool
  is_en_passant : Bool
deriving DecidableEq, Repr

/-- Move::new. -/
def Move.new (f t : Square) : Move :=
  ⟨f, t, none, false, false⟩

/-- GameStatus from types.rs. -/
inductive GameStatus : Type
  | InProgress
  | Check
  | Checkmate (winner : Color)
  | Stalemate
  | DrawByFiftyMoveRule
  | DrawByInsufficientMaterial
  | DrawByRepetition
deriving DecidableEq, Repr

/-- ChessError from error.rs; each variant carries its message payload. -/
inductive ChessError : Type
  | InvalidFen (reason : String)
  | InvalidMove (reason : String)
  | InvalidSquare (square : String)
  | GameOver (status : String)
  | ParseError (input : String)
deriving DecidableEq, Repr

/-- Board from board.rs: 64 optional (piece, color) cells.  Every board the
engine builds has exactly 64 entries (Board::new and Board::set preserve
that), so reading with getD none is exact for the arrays of the source. -/
structure Board : Type where
  squares : List (Option (Piece × Color))
deriving DecidableEq, Repr

/-- Board::new. -/
def Board.new : Board := ⟨List.replicate 64 none⟩

/-- Board::get. -/
def Board.get (b : Board) (square : Square) : Option (Piece × Color) :=
  b.squares.getD square.index none

/-- Board::set. -/
def Board.set (b : Board) (square : Square) (piece : Option (Piece × Color)) : Board :=
  ⟨b.squares.set square.index piece⟩

/-- Board::is_empty. -/
def Board.is_empty (b : Board) (square : Square) : Bool :=
  (b.get square).isNone

/-- Board::find_king: first square (in index order) holding the king of the
given color. -/
def Board.find_king (b : Board) (color : Color) : Option Square :=
  (List.range 64).findSome? fun i =>
    match b.squares.getD i none with
    | some (Piece.King, c) => if c = color then Square.new i else none
    | _ => none

/-- Board::pieces_of_color. -/
def Board.pieces_of_color (b : Board) (color : Color) : List (Square × Piece) :=
  (List.range 64).filterMap fun i =>
    match b.squares.getD i none with
    | some (piece, c) =>
        if c = color then (Square.new i).map (fun s => (s, piece)) else none
    | none => none

/-- is_valid_square from board.rs (coordinates as signed integers). -/
def is_valid_square (rank file : Int) : Bool :=
  decide (0 ≤ rank ∧ rank < 8 ∧ 0 ≤ file ∧ file < 8)

/-- Board::initial_position. -/
def Board.initial_position : Board :=
  let b := Board.new
  let b := b.set (sqIdx 0) (some (Piece.Rook, Color.White))
  let b := b.set (sqIdx 1) (some (Piece.Knight, Color.White))
  let b := b.set (sqIdx 2) (some (Piece.Bishop, Color.White))
  let b := b.set (sqIdx 3) (some (Piece.Queen, Color.White))
  let b := b.set (sqIdx 4) (some (Piece.King, Color.White))
  let b := b.set (sqIdx 5) (some (Piece.Bishop, Color.White))
  let b := b.set (sqIdx 6) (some (Piece.Knight, Color.White))
  let b := b.set (sqIdx 7) (some (Piece.Rook, Color.White))
  let b := (List.range 8).foldl
    (fun b i => Board.set b ⟨⟨8 + i % 8, by omega⟩⟩ (some (Piece.Pawn, Color.White))) b
  let b := (List.range 8).foldl
    (fun b i => Board.set b ⟨⟨48 + i % 8, by omega⟩⟩ (some (Piece.Pawn, Color.Black))) b
  let b := b.set (sqIdx 56) (some (Piece.Rook, Color.Black))
  let b := b.set (sqIdx 57) (some (Piece.Knight, Color.Black))
  let b := b.set (sqIdx 58) (some (Piece.Bishop, Color.Black))
  let b := b.set (sqIdx 59) (some (Piece.Queen, Color.Black))
  let b := b.set (sqIdx 60) (some (Piece.King, Color.Black))
  let b := b.set (sqIdx 61) (some (Piece.Bishop, Color.Black))
  let b := b.set (sqIdx 62) (some (Piece.Knight, Color.Black))
  b.set (sqIdx 63) (some (Piece.Rook, Color.Black))

/-- The knight offset table shared by board.rs and move_gen.rs. -/
def KNIGHT_OFFSETS : List (Int × Int) :=
  [(-2, -1), (-2, 1), (-1, -2), (-1, 2), (1, -2), (1, 2), (2, -1), (2, 1)]

/-- The king offset table shared by board.rs and move_gen.rs. -/
def KING_OFFSETS : List (Int × Int) :=
  [(-1, -1), (-1, 0), (-1, 1), (0, -1), (0, 1), (1, -1), (1, 0), (1, 1)]

/-- Diagonal ray directions. -/
def BISHOP_DIRECTIONS : List (Int × Int) := [(-1, -1), (-1, 1), (1, -1), (1, 1)]

/-- Orthogonal ray directions. -/
def ROOK_DIRECTIONS : List (Int × Int) := [(-1, 0), (1, 0), (0, -1), (0, 1)]

/-- The loop body of Board::is_attacked_along_ray.  The Rust loop steps at
most 7 times before leaving the board, so fuel 8 covers it exactly. -/
def Board.ray_attack_aux (b : Board) (attacker_color : Color)
    (rank_dir file_dir : Int) (piece_types : List Piece) :
    Nat → Int → Int → Bool
  | 0, _, _ => false
  | fuel + 1, rank, file =>
    let r := rank + rank_dir
    let f := file + file_dir
    if is_valid_square r f then
      match Square.from_rank_file r.toNat f.toNat with
      | some s =>
        match b.get s with
        | some (piece, color) =>
            decide (color = attacker_color ∧ piece ∈ piece_types)
        | none => Board.ray_attack_aux b attacker_color rank_dir file_dir piece_types fuel r f
      | none => false
    else false

/-- Board::is_attacked_along_ray. -/
def Board.is_attacked_along_ray (b : Board) (square : Square)
    (attacker_color : Color) (rank_dir file_dir : Int)
    (piece_types : List Piece) : Bool :=
  Board.ray_attack_aux b attacker_color rank_dir file_dir piece_types 8
    (square.rank : Int) (square.file : Int)

/-- Board::is_attacked_by. -/
def Board.is_attacked_by (b : Board) (square : Square) (attacker_color : Color) : Bool :=
  let target_rank : Int := square.rank
  let target_file : Int := square.file
  -- pawn attacks
  let pawn_direction : Int := if attacker_color = Color.White then 1 else -1
  let pawn_rank : Int := target_rank - pawn_direction
  let pawn_hit :=
    decide (0 ≤ pawn_rank ∧ pawn_rank < 8) &&
    ([(-1 : Int), 1].any fun file_offset =>
      let pawn_file := target_file + file_offset
      decide (0 ≤ pawn_file ∧ pawn_file < 8) &&
      (match Square.from_rank_file pawn_rank.toNat pawn_file.toNat with
       | some s =>
         match b.get s with
         | some (Piece.Pawn, color) => decide (color = attacker_color)
         | _ => false
       | none => false))
  -- knight attacks
  let knight_hit :=
    KNIGHT_OFFSETS.any fun ro =>
      let knight_rank := target_rank + ro.1
      let knight_file := target_file + ro.2
      is_valid_square knight_rank knight_file &&
      (match Square.from_rank_file knight_rank.toNat knight_file.toNat with
       | some s =>
         match b.get s with
         | some (Piece.Knight, color) => decide (color = attacker_color)
         | _ => false
       | none => false)
  -- king attacks
  let king_hit :=
    KING_OFFSETS.any fun ro =>
      let king_rank := target_rank + ro.1
      let king_file := target_file + ro.2
      is_valid_square king_rank king_file &&
      (match Square.from_rank_file king_rank.toNat king_file.toNat with
       | some s =>
         match b.get s with
         | some (Piece.King, color) => decide (color = attacker_color)
         | _ => false
       | none => false)
  -- sliding attacks
  let bishop_hit :=
    BISHOP_DIRECTIONS.any fun d =>
      b.is_attacked_along_ray square attacker_color d.1 d.2 [Piece.Bishop, Piece.Queen]
  let rook_hit :=
    ROOK_DIRECTIONS.any fun d =>
      b.is_attacked_along_ray square attacker_color d.1 d.2 [Piece.Rook, Piece.Queen]
  pawn_hit || knight_hit || king_hit || bishop_hit || rook_hit

/-- CastlingRights from position.rs. -/
structure CastlingRights : Type where
  white_kingside : Bool
  white_queenside : Bool
  black_kingside : Bool
  black_queenside : Bool
deriving DecidableEq, Repr

/-- CastlingRights::new. -/
def CastlingRights.new : CastlingRights := ⟨true, true, true, true⟩

/-- CastlingRights::none. -/
def CastlingRights.none : CastlingRights := ⟨false, false, false, false⟩

/-- CastlingRights::can_castle. -/
def CastlingRights.can_castle (r : CastlingRights) (color : Color) (kingside : Bool) : Bool :=
  match color, kingside with
  | Color.White, true => r.white_kingside
  | Color.White, false => r.white_queenside
  | Color.Black, true => r.black_kingside
  | Color.Black, false => r.black_queenside

/-- Position from position.rs.  halfmove_clock and fullmove_number are u32 in
the source, position_history holds u64 hashes; all are kept as Nat with the
wrap-around written out where they are updated. -/
structure Position : Type where
  board : Board
  side_to_move : Color
  castling_rights : CastlingRights
  en_passant_target : Option Square
  halfmove_clock : Nat
  fullmove_number : Nat
  position_history : List Nat
deriving DecidableEq, Repr

/-- One step of the linear congruential generator ZobristRng::next
(wrapping u64 arithmetic). -/
def zobrist_next (state : Nat) : Nat :=
  (state * 6364136223846793005 + 1442695040888963407) % (2 ^ 64)

/-- The n-th value (0-based) produced by a ZobristRng seeded with seed. -/
def zobrist_value (seed : Nat) : Nat → Nat
  | 0 => zobrist_next seed
  | n + 1 => zobrist_next (zobrist_value seed n)

/-- ZOBRIST_PIECES: the table is filled from seed 123456789 iterating
square-major, then color, then piece. -/
def ZOBRIST_PIECES (square color_index piece_index : Nat) : Nat :=
  zobrist_value 123456789 (square * 12 + color_index * 6 + piece_index)

/-- ZOBRIST_CASTLING (seed 987654321). -/
def ZOBRIST_CASTLING (i : Nat) : Nat := zobrist_value 987654321 i

/-- ZOBRIST_EN_PASSANT (seed 456789123). -/
def ZOBRIST_EN_PASSANT (file : Nat) : Nat := zobrist_value 456789123 file

/-- ZOBRIST_SIDE_TO_MOVE (seed 321654987). -/
def ZOBRIST_SIDE_TO_MOVE : Nat := zobrist_value 321654987 0

/-- The piece index used by Position::compute_zobrist_hash. -/
def piece_zobrist_index : Piece → Nat
  | Piece.Pawn => 0
  | Piece.Knight => 1
  | Piece.Bishop => 2
  | Piece.Rook => 3
  | Piece.Queen => 4
  | Piece.King => 5

/-- The color index used by Position::compute_zobrist_hash. -/
def color_zobrist_index : Color → Nat
  | Color.White => 0
  | Color.Black => 1

/-- Position::compute_zobrist_hash. -/
def Position.compute_zobrist_hash (p : Position) : Nat :=
  let h := (List.range 64).foldl
    (fun h i =>
      match p.board.squares.getD i none with
      | some (piece, color) =>
          h ^^^ ZOBRIST_PIECES i (color_zobrist_index color) (piece_zobrist_index piece)
      | none => h) 0
  let h := if p.castling_rights.white_kingside then h ^^^ ZOBRIST_CASTLING 0 else h
  let h := if p.castling_rights.white_queenside then h ^^^ ZOBRIST_CASTLING 1 else h
  let h := if p.castling_rights.black_kingside then h ^^^ ZOBRIST_CASTLING 2 else h
  let h := if p.castling_rights.black_queenside then h ^^^ ZOBRIST_CASTLING 3 else h
  let h := match p.en_passant_target with
    | some ep => h ^^^ ZOBRIST_EN_PASSANT ep.file
    | none => h
  if p.side_to_move = Color.Black then h ^^^ ZOBRIST_SIDE_TO_MOVE else h

/-- Position::new. -/
def Position.new : Position :=
  let position : Position :=
    { board := Board.initial_position
      side_to_move := Color.White
      castling_rights := CastlingRights.new
      en_passant_target := none
      halfmove_clock := 0
      fullmove_number := 1
      position_history := [] }
  { position with position_history := position.position_history ++ [position.compute_zobrist_hash] }

/-- Position::empty. -/
def Position.empty : Position :=
  { board := Board.new
    side_to_move := Color.White
    castling_rights := CastlingRights.none
    en_passant_target := none
    halfmove_clock := 0
    fullmove_number := 1
    position_history := [] }

/-- Position::is_repetition: the last pushed hash occurs at least three
times in the history. -/
def Position.is_repetition (p : Position) : Bool :=
  if p.position_history.length < 3 then false
  else
    match p.position_history.getLast? with
    | none => false
    | some current_hash =>
        decide (3 ≤ (p.position_history.filter (fun h => h = current_hash)).length)

/-- Position::has_insufficient_material. -/
def Position.has_insufficient_material (p : Position) : Bool :=
  let white_pieces := p.board.pieces_of_color Color.White
  let black_pieces := p.board.pieces_of_color Color.Black
  if white_pieces.length = 1 ∧ black_pieces.length = 1 then true
  else if white_pieces.length = 1 ∧ black_pieces.length = 2 ∧
      black_pieces.any (fun sp => sp.2 = Piece.Bishop ∨ sp.2 = Piece.Knight) then true
  else if black_pieces.length = 1 ∧ white_pieces.length = 2 ∧
      white_pieces.any (fun sp => sp.2 = Piece.Bishop ∨ sp.2 = Piece.Knight) then true
  else if white_pieces.length = 2 ∧ black_pieces.length = 2 then
    match white_pieces.find? (fun sp => sp.2 = Piece.Bishop),
          black_pieces.find? (fun sp => sp.2 = Piece.Bishop) with
    | some (white_sq, _), some (black_sq, _) =>
        decide ((white_sq.rank + white_sq.file) % 2 = (black_sq.rank + black_sq.file) % 2)
    | _, _ => false
  else false

/-- Position::update_castling_rights_after_move, translated exactly as
written: it inspects the board it is handed at mv.from and mv.to. -/
def Position.update_castling_rights_after_move (p : Position) (mv : Move) : Position :=
  -- if a king is on mv.from, remove both rights of its color
  let p :=
    match p.board.get mv.from' with
    | some (Piece.King, Color.White) =>
        { p with castling_rights :=
            { p.castling_rights with white_kingside := false, white_queenside := false } }
    | some (Piece.King, Color.Black) =>
        { p with castling_rights :=
            { p.castling_rights with black_kingside := false, black_queenside := false } }
    | _ => p
  -- if a rook is on mv.from at its starting square, remove that right
  let p :=
    match p.board.get mv.from' with
    | some (Piece.Rook, Color.White) =>
        if mv.from'.index = 0 then
          { p with castling_rights := { p.castling_rights with white_queenside := false } }
        else if mv.from'.index = 7 then
          { p with castling_rights := { p.castling_rights with white_kingside := false } }
        else p
    | some (Piece.Rook, Color.Black) =>
        if mv.from'.index = 56 then
          { p with castling_rights := { p.castling_rights with black_queenside := false } }
        else if mv.from'.index = 63 then
          { p with castling_rights := { p.castling_rights with black_kingside := false } }
        else p
    | _ => p
  -- if a rook of the home color is on mv.to at a rook home square, remove that right
  if mv.to'.index = 0 then
    if p.board.get mv.to' = some (Piece.Rook, Color.White) then
      { p with castling_rights := { p.castling_rights with white_queenside := false } }
    else p
  else if mv.to'.index = 7 then
    if p.board.get mv.to' = some (Piece.Rook, Color.White) then
      { p with castling_rights := { p.castling_rights with white_kingside := false } }
    else p
  else if mv.to'.index = 56 then
    if p.board.get mv.to' = some (Piece.Rook, Color.Black) then
      { p with castling_rights := { p.castling_rights with black_queenside := false } }
    else p
  else if mv.to'.index = 63 then
    if p.board.get mv.to' = some (Piece.Rook, Color.Black) then
      { p with castling_rights := { p.castling_rights with black_kingside := false } }
    else p
  else p

/-- generate_pawn_moves from move_gen.rs. -/
def generate_pawn_moves (board : Board) (from_sq : Square) (color : Color)
    (en_passant : Option Square) : List Move :=
  let direction : Int := if color = Color.White then 1 else -1
  let start_rank : Int := if color = Color.White then 1 else 6
  let promotion_rank : Nat := if color = Color.White then 7 else 0
  let from_rank : Int := from_sq.rank
  let from_file : Int := from_sq.file
  -- single push (with promotions) and double push
  let one_ahead_rank := from_rank + direction
  let pushes :=
    if is_valid_square one_ahead_rank from_file then
      match Square.from_rank_file one_ahead_rank.toNat from_file.toNat with
      | some one_ahead =>
        if board.is_empty one_ahead then
          let single :=
            if one_ahead_rank.toNat = promotion_rank then
              [Piece.Queen, Piece.Rook, Piece.Bishop, Piece.Knight].map
                (fun promotion_piece => { Move.new from_sq one_ahead with promotion := some promotion_piece })
            else
              [Move.new from_sq one_ahead]
          let double :=
            if from_rank = start_rank then
              let two_ahead_rank := from_rank + 2 * direction
              if is_valid_square two_ahead_rank from_file then
                match Square.from_rank_file two_ahead_rank.toNat from_file.toNat with
                | some two_ahead =>
                    if board.is_empty two_ahead then [Move.new from_sq two_ahead] else []
                | none => []
              else []
            else []
          single ++ double
        else []
      | none => []
    else []
  -- diagonal captures, promotions on the last rank, and the en-passant candidate
  let captures :=
    [(-1 : Int), 1].flatMap fun file_offset =>
      let capture_rank := from_rank + direction
      let capture_file := from_file + file_offset
      if is_valid_square capture_rank capture_file then
        match Square.from_rank_file capture_rank.toNat capture_file.toNat with
        | some capture_square =>
          let can_capture :=
            match board.get capture_square with
            | some (_, piece_color) => decide (piece_color ≠ color)
            | none => false
          let capture_moves :=
            if can_capture then
              if capture_rank.toNat = promotion_rank then
                [Piece.Queen, Piece.Rook, Piece.Bishop, Piece.Knight].map
                  (fun promotion_piece =>
                    { Move.new from_sq capture_square with promotion := some promotion_piece })
              else
                [Move.new from_sq capture_square]
            else []
          let ep_moves :=
            match en_passant with
            | some ep_target =>
                if capture_square = ep_target then
                  [{ Move.new from_sq capture_square with is_en_passant := true }]
                else []
            | none => []
          capture_moves ++ ep_moves
        | none => []
      else []
  pushes ++ captures

/-- generate_knight_moves from move_gen.rs. -/
def generate_knight_moves (board : Board) (from_sq : Square) (color : Color) : List Move :=
  let from_rank : Int := from_sq.rank
  let from_file : Int := from_sq.file
  KNIGHT_OFFSETS.flatMap fun off =>
    let to_rank := from_rank + off.1
    let to_file := from_file + off.2
    if is_valid_square to_rank to_file then
      match Square.from_rank_file to_rank.toNat to_file.toNat with
      | some to_square =>
        let can_move :=
          match board.get to_square with
          | some (_, piece_color) => decide (piece_color ≠ color)
          | none => true
        if can_move then [Move.new from_sq to_square] else []
      | none => []
    else []

/-- The unbounded loop of generate_sliding_moves; at most 7 steps fit on the
board, so fuel 8 covers the source loop exactly. -/
def slide_aux (board : Board) (from_sq : Square) (color : Color)
    (rank_dir file_dir : Int) : Nat → Int → Int → List Move
  | 0, _, _ => []
  | fuel + 1, rank, file =>
    let r := rank + rank_dir
    let f := file + file_dir
    if is_valid_square r f then
      match Square.from_rank_file r.toNat f.toNat with
      | some to_square =>
        match board.get to_square with
        | some (_, piece_color) =>
            if piece_color ≠ color then [Move.new from_sq to_square] else []
        | none =>
            Move.new from_sq to_square :: slide_aux board from_sq color rank_dir file_dir fuel r f
      | none => []
    else []

/-- generate_sliding_moves from move_gen.rs. -/
def generate_sliding_moves (board : Board) (from_sq : Square) (color : Color)
    (directions : List (Int × Int)) : List Move :=
  directions.flatMap fun d =>
    slide_aux board from_sq color d.1 d.2 8 (from_sq.rank : Int) (from_sq.file : Int)

/-- generate_bishop_moves. -/
def generate_bishop_moves (board : Board) (from_sq : Square) (color : Color) : List Move :=
  generate_sliding_moves board from_sq color BISHOP_DIRECTIONS

/-- generate_rook_moves. -/
def generate_rook_moves (board : Board) (from_sq : Square) (color : Color) : List Move :=
  generate_sliding_moves board from_sq color ROOK_DIRECTIONS

/-- generate_queen_moves. -/
def generate_queen_moves (board : Board) (from_sq : Square) (color : Color) : List Move :=
  generate_bishop_moves board from_sq color ++ generate_rook_moves board from_sq color

/-- generate_king_moves from move_gen.rs. -/
def generate_king_moves (board : Board) (from_sq : Square) (color : Color) : List Move :=
  let from_rank : Int := from_sq.rank
  let from_file : Int := from_sq.file
  KING_OFFSETS.flatMap fun off =>
    let to_rank := from_rank + off.1
    let to_file := from_file + off.2
    if is_valid_square to_rank to_file then
      match Square.from_rank_file to_rank.toNat to_file.toNat with
      | some to_square =>
        let can_move :=
          match board.get to_square with
          | some (_, piece_color) => decide (piece_color ≠ color)
          | none => true
        if can_move then [Move.new from_sq to_square] else []
      | none => []
    else []

/-- generate_castling_moves from move_gen.rs. -/
def generate_castling_moves (position : Position) : List Move :=
  let color := position.side_to_move
  let rank : Nat := if color = Color.White then 0 else 7
  let kingside :=
    if position.castling_rights.can_castle color true then
      let king_square : Square := ⟨⟨rank * 8 + 4, by dsimp only [rank]; split <;> omega⟩⟩
      let rook_square : Square := ⟨⟨rank * 8 + 7, by dsimp only [rank]; split <;> omega⟩⟩
      let f_square : Square := ⟨⟨rank * 8 + 5, by dsimp only [rank]; split <;> omega⟩⟩
      let g_square : Square := ⟨⟨rank * 8 + 6, by dsimp only [rank]; split <;> omega⟩⟩
      let king_present := position.board.get king_square = some (Piece.King, color)
      let rook_present := position.board.get rook_square = some (Piece.Rook, color)
      if king_present ∧ rook_present ∧
          position.board.is_empty f_square ∧ position.board.is_empty g_square then
        [{ Move.new king_square g_square with is_castling := true }]
      else []
    else []
  let queenside :=
    if position.castling_rights.can_castle color false then
      let king_square : Square := ⟨⟨rank * 8 + 4, by dsimp only [rank]; split <;> omega⟩⟩
      let rook_square : Square := ⟨⟨rank * 8 + 0, by dsimp only [rank]; split <;> omega⟩⟩
      let b_square : Square := ⟨⟨rank * 8 + 1, by dsimp only [rank]; split <;> omega⟩⟩
      let c_square : Square := ⟨⟨rank * 8 + 2, by dsimp only [rank]; split <;> omega⟩⟩
      let d_square : Square := ⟨⟨rank * 8 + 3, by dsimp only [rank]; split <;> omega⟩⟩
      let king_present := position.board.get king_square = some (Piece.King, color)
      let rook_present := position.board.get rook_square = some (Piece.Rook, color)
      if king_present ∧ rook_present ∧ position.board.is_empty b_square ∧
          position.board.is_empty c_square ∧ position.board.is_empty d_square then
        [{ Move.new king_square c_square with is_castling := true }]
      else []
    else []
  kingside ++ queenside

/-- generate_pseudo_legal_moves from move_gen.rs. -/
def generate_pseudo_legal_moves (position : Position) : List Move :=
  let color := position.side_to_move
  ((position.board.pieces_of_color color).flatMap fun sp =>
    match sp.2 with
    | Piece.Pawn => generate_pawn_moves position.board sp.1 color position.en_passant_target
    | Piece.Knight => generate_knight_moves position.board sp.1 color
    | Piece.Bishop => generate_bishop_moves position.board sp.1 color
    | Piece.Rook => generate_rook_moves position.board sp.1 color
    | Piece.Queen => generate_queen_moves position.board sp.1 color
    | Piece.King => generate_king_moves position.board sp.1 color)
  ++ generate_castling_moves position

/-- apply_move_for_validation from validation.rs.  The en-passant branch
computes mv.to.rank() - 1 on a u8; for a white en-passant move with
to.rank = 0 that wraps to 255 (release-mode semantics), which the explicit
mod 256 reproduces, and from_rank_file then rejects it. -/
def apply_move_for_validation (position : Position) (mv : Move) : Position :=
  -- en passant: remove the captured pawn
  let position :=
    if mv.is_en_passant then
      let captured_pawn_rank : Nat :=
        if position.side_to_move = Color.White then (mv.to'.rank + 255) % 256
        else (mv.to'.rank + 1) % 256
      match Square.from_rank_file captured_pawn_rank mv.to'.file with
      | some captured_square => { position with board := position.board.set captured_square none }
      | none => position
    else position
  -- castling: move the rook (the debug assertion of the source is a no-op
  -- in release builds and has no effect on the state)
  let position :=
    if mv.is_castling then
      let rank := mv.from'.rank
      if mv.to'.file > mv.from'.file then
        match Square.from_rank_file rank 7, Square.from_rank_file rank 5 with
        | some rook_from, some rook_to =>
            let rook := position.board.get rook_from
            { position with board := (position.board.set rook_from none).set rook_to rook }
        | _, _ => position
      else
        match Square.from_rank_file rank 0, Square.from_rank_file rank 3 with
        | some rook_from, some rook_to =>
            let rook := position.board.get rook_from
            { position with board := (position.board.set rook_from none).set rook_to rook }
        | _, _ => position
    else position
  -- move the piece, substituting the promotion piece if any
  let piece := position.board.get mv.from'
  let board := position.board.set mv.from' none
  let board :=
    match mv.promotion with
    | some promotion_piece =>
      match piece with
      | some (_, color) => board.set mv.to' (some (promotion_piece, color))
      | none => board
    | none => board.set mv.to' piece
  { position with board := board }

/-- is_in_check from validation.rs. -/
def is_in_check (position : Position) (color : Color) : Bool :=
  match position.board.find_king color with
  | some king_square => position.board.is_attacked_by king_square color.opposite
  | none => false

/-- can_castle_kingside from validation.rs. -/
def can_castle_kingside (position : Position) (color : Color) : Bool :=
  if ¬ position.castling_rights.can_castle color true then false
  else
    let rank : Nat := if color = Color.White then 0 else 7
    let king_square : Square := ⟨⟨rank * 8 + 4, by dsimp only [rank]; split <;> omega⟩⟩
    let rook_square : Square := ⟨⟨rank * 8 + 7, by dsimp only [rank]; split <;> omega⟩⟩
    let f_square : Square := ⟨⟨rank * 8 + 5, by dsimp only [rank]; split <;> omega⟩⟩
    let g_square : Square := ⟨⟨rank * 8 + 6, by dsimp only [rank]; split <;> omega⟩⟩
    if ¬ (position.board.get king_square = some (Piece.King, color)) then false
    else if ¬ (position.board.get rook_square = some (Piece.Rook, color)) then false
    else if ¬ position.board.is_empty f_square ∨ ¬ position.board.is_empty g_square then false
    else if is_in_check position color then false
    else if position.board.is_attacked_by f_square color.opposite then false
    else if position.board.is_attacked_by g_square color.opposite then false
    else true

/-- can_castle_queenside from validation.rs. -/
def can_castle_queenside (position : Position) (color : Color) : Bool :=
  if ¬ position.castling_rights.can_castle color false then false
  else
    let rank : Nat := if color = Color.White then 0 else 7
    let king_square : Square := ⟨⟨rank * 8 + 4, by dsimp only [rank]; split <;> omega⟩⟩
    let rook_square : Square := ⟨⟨rank * 8 + 0, by dsimp only [rank]; split <;> omega⟩⟩
    let b_square : Square := ⟨⟨rank * 8 + 1, by dsimp only [rank]; split <;> omega⟩⟩
    let c_square : Square := ⟨⟨rank * 8 + 2, by dsimp only [rank]; split <;> omega⟩⟩
    let d_square : Square := ⟨⟨rank * 8 + 3, by dsimp only [rank]; split <;> omega⟩⟩
    if ¬ (position.board.get king_square = some (Piece.King, color)) then false
    else if ¬ (position.board.get rook_square = some (Piece.Rook, color)) then false
    else if ¬ position.board.is_empty b_square ∨ ¬ position.board.is_empty c_square ∨
        ¬ position.board.is_empty d_square then false
    else if is_in_check position color then false
    else if position.board.is_attacked_by d_square color.opposite then false
    else if position.board.is_attacked_by c_square color.opposite then false
    else true

/-- is_legal_move from validation.rs. -/
def is_legal_move (position : Position) (mv : Move) : Bool :=
  if mv.is_castling then
    let color := position.side_to_move
    let kingside := mv.to'.file > mv.from'.file
    if kingside then can_castle_kingside position color
    else can_castle_queenside position color
  else
    let test_position := apply_move_for_validation position mv
    let our_color := position.side_to_move
    ¬ is_in_check test_position our_color

/-- generate_legal_moves from validation.rs. -/
def generate_legal_moves (position : Position) : List Move :=
  (generate_pseudo_legal_moves position).filter (fun mv => is_legal_move position mv)

/-- is_checkmate from validation.rs (the Rust && short-circuits, so no move
generation happens when the side to move is not in check). -/
def is_checkmate (position : Position) : Bool :=
  is_in_check position position.side_to_move && (generate_legal_moves position).isEmpty

/-- is_stalemate from validation.rs. -/
def is_stalemate (position : Position) : Bool :=
  !is_in_check position position.side_to_move && (generate_legal_moves position).isEmpty

/-- Splitter on a character predicate, keeping empty pieces: the model of
Rust str::split (used with the '/' separator in fen.rs). -/
def split_on_pred (p : Char → Bool) : List Char → List (List Char)
  | [] => [[]]
  | c :: cs =>
    match split_on_pred p cs with
    | [] => [[c]]
    | w :: ws => if p c then [] :: w :: ws else (c :: w) :: ws

/-- The model of Rust str::split_whitespace: split on whitespace and drop
the empty pieces. -/
def split_whitespace (l : List Char) : List (List Char) :=
  (split_on_pred Char.isWhitespace l).filter (fun w => ¬ w.isEmpty)

/-- Square::from_algebraic from types.rs, on the character list of the
input.  The source checks the byte length; on the character level that is
the same test except for non-ASCII two-byte inputs, where the source
aborts or errors and this model errors. -/
def Square.from_algebraic (s : List Char) : Except ChessError Square :=
  match s with
  | [c0, c1] =>
    if 97 ≤ c0.toNat ∧ c0.toNat ≤ 104 then
      if 49 ≤ c1.toNat ∧ c1.toNat ≤ 56 then
        -- the source builds the square directly; the index is below 64
        -- whenever the two range checks pass, so the bound check of
        -- Square::new always succeeds and the none arm is unreachable
        match Square.new ((c1.toNat - 49) * 8 + (c0.toNat - 97)) with
        | some sq => Except.ok sq
        | none => Except.error (ChessError.InvalidSquare (String.mk s))
      else Except.error (ChessError.InvalidSquare (String.mk s))
    else Except.error (ChessError.InvalidSquare (String.mk s))
  | _ => Except.error (ChessError.InvalidSquare (String.mk s))

/-- Square::to_algebraic from types.rs, as a character list. -/
def Square.to_algebraic_chars (s : Square) : List Char :=
  [Char.ofNat (97 + s.index % 8), Char.ofNat (49 + s.index / 8)]

/-- Square::to_algebraic. -/
def Square.to_algebraic (s : Square) : String :=
  String.mk s.to_algebraic_chars

/-- Move::to_uci from types.rs.  The source aborts on a promotion piece
other than queen / rook / bishop / knight; that unreachable arm is mapped
to a placeholder character (the string is only used in error messages). -/
def Move.to_uci (mv : Move) : String :=
  let base := mv.from'.to_algebraic_chars ++ mv.to'.to_algebraic_chars
  match mv.promotion with
  | some Piece.Queen => String.mk (base ++ ['q'])
  | some Piece.Rook => String.mk (base ++ ['r'])
  | some Piece.Bishop => String.mk (base ++ ['b'])
  | some Piece.Knight => String.mk (base ++ ['n'])
  | some _ => String.mk (base ++ ['?'])
  | none => String.mk base

/-- fen_char_to_piece from fen.rs, written as the equivalent twelve-case
table (the source lowercases the character to pick the piece kind and uses
its case for the color; every character outside the twelve letters maps to
None). -/
def fen_char_to_piece : Char → Option (Piece × Color)
  | 'P' => some (Piece.Pawn, Color.White)
  | 'N' => some (Piece.Knight, Color.White)
  | 'B' => some (Piece.Bishop, Color.White)
  | 'R' => some (Piece.Rook, Color.White)
  | 'Q' => some (Piece.Queen, Color.White)
  | 'K' => some (Piece.King, Color.White)
  | 'p' => some (Piece.Pawn, Color.Black)
  | 'n' => some (Piece.Knight, Color.Black)
  | 'b' => some (Piece.Bishop, Color.Black)
  | 'r' => some (Piece.Rook, Color.Black)
  | 'q' => some (Piece.Queen, Color.Black)
  | 'k' => some (Piece.King, Color.Black)
  | _ => none

/-- piece_to_fen_char from fen.rs. -/
def piece_to_fen_char (piece : Piece) (color : Color) : Char :=
  let c : Char :=
    match piece with
    | Piece.Pawn => 'p'
    | Piece.Knight => 'n'
    | Piece.Bishop => 'b'
    | Piece.Rook => 'r'
    | Piece.Queen => 'q'
    | Piece.King => 'k'
  if color = Color.White then c.toUpper else c

/-- The digit table of parse_piece_placement (only '1'..'8' are accepted). -/
def fen_digit_value : Char → Option Nat
  | '1' => some (1 : Nat)
  | '2' => some 2
  | '3' => some 3
  | '4' => some (4 : Nat)
  | '5' => some 5
  | '6' => some 6
  | '7' => some (7 : Nat)
  | '8' => some 8
  | _ => none

/-- The per-rank loop of parse_piece_placement: walk the characters of one
rank keeping the running file, and produce the cells of the rank in order.
The source writes each cell straight into the board at strictly increasing
files of the rank (untouched cells stay None on the empty board), which is
the same rank content. -/
def expand_rank_aux : List Char → Nat → Except ChessError (List (Option (Piece × Color)))
  | [], file =>
      if file = 8 then Except.ok []
      else Except.error (ChessError.InvalidFen "rank does not have 8 squares")
  | c :: cs, file =>
      if file ≥ 8 then Except.error (ChessError.InvalidFen "too many squares in rank")
      else if c.isDigit then
        match fen_digit_value c with
        | some empty_count =>
            if file + empty_count > 8 then
              Except.error (ChessError.InvalidFen "rank has too many squares")
            else
              match expand_rank_aux cs (file + empty_count) with
              | Except.ok rest => Except.ok (List.replicate empty_count none ++ rest)
              | Except.error e => Except.error e
        | none => Except.error (ChessError.InvalidFen "invalid digit in FEN")
      else
        match fen_char_to_piece c with
        | some pc =>
            match expand_rank_aux cs (file + 1) with
            | Except.ok rest => Except.ok (some pc :: rest)
            | Except.error e => Except.error e
        | none => Except.error (ChessError.InvalidFen "invalid piece character")

/-- One FEN rank expanded to its 8 cells. -/
def expand_rank (cs : List Char) : Except ChessError (List (Option (Piece × Color))) :=
  expand_rank_aux cs 0

/-- The rank loop of parse_piece_placement: expand the ranks in order,
stopping at the first error. -/
def expand_ranks : List (List Char) → Except ChessError (List (List (Option (Piece × Color))))
  | [] => Except.ok []
  | r :: rs =>
    match expand_rank r with
    | Except.error e => Except.error e
    | Except.ok cells =>
      match expand_ranks rs with
      | Except.error e => Except.error e
      | Except.ok rest => Except.ok (cells :: rest)

/-- parse_piece_placement from fen.rs.  The FEN ranks arrive top (rank 8)
first; the board stores rank 1 first, so the parsed rows are reversed and
flattened into the 64-cell array. -/
def parse_piece_placement (placement : List Char) :
    Except ChessError Board :=
  if (split_on_pred (fun c => c = '/') placement).length ≠ 8 then
    Except.error (ChessError.InvalidFen "expected 8 ranks")
  else
    match expand_ranks (split_on_pred (fun c => c = '/') placement) with
    | Except.ok rows => Except.ok ⟨rows.reverse.flatten⟩
    | Except.error e => Except.error e

/-- parse_active_color from fen.rs. -/
def parse_active_color (s : List Char) : Except ChessError Color :=
  if s = ['w'] then Except.ok Color.White
  else if s = ['b'] then Except.ok Color.Black
  else Except.error (ChessError.InvalidFen "invalid active color")

/-- The loop of parse_castling_rights. -/
def parse_castling_rights_aux : List Char → CastlingRights → Except ChessError CastlingRights
  | [], rights => Except.ok rights
  | c :: cs, rights =>
      if c = 'K' then parse_castling_rights_aux cs { rights with white_kingside := true }
      else if c = 'Q' then parse_castling_rights_aux cs { rights with white_queenside := true }
      else if c = 'k' then parse_castling_rights_aux cs { rights with black_kingside := true }
      else if c = 'q' then parse_castling_rights_aux cs { rights with black_queenside := true }
      else Except.error (ChessError.InvalidFen "invalid castling character")

/-- parse_castling_rights from fen.rs. -/
def parse_castling_rights (s : List Char) : Except ChessError CastlingRights :=
  if s = ['-'] then Except.ok CastlingRights.none
  else parse_castling_rights_aux s CastlingRights.none

/-- parse_en_passant from fen.rs. -/
def parse_en_passant (s : List Char) : Except ChessError (Option Square) :=
  if s = ['-'] then Except.ok none
  else
    match Square.from_algebraic s with
    | Except.ok square => Except.ok (some square)
    | Except.error e => Except.error e

/-- The digit-run part of str::parse::<u32>: a non-empty run of ASCII
digits whose value fits in 32 bits. -/
def parse_u32_digits (digits : List Char) : Option Nat :=
  if digits.isEmpty then none
  else if digits.all Char.isDigit then
    if digits.foldl (fun acc c => acc * 10 + (c.toNat - 48)) 0 < 2 ^ 32 then
      some (digits.foldl (fun acc c => acc * 10 + (c.toNat - 48)) 0)
    else none
  else none

/-- The model of str::parse::<u32>: an optional leading plus sign, then a
non-empty run of ASCII digits whose value fits in 32 bits. -/
def parse_u32 (s : List Char) : Option Nat :=
  parse_u32_digits (if s.head? = some '+' then s.tail else s)

/-- The number of kings of one color on the board (the counting loop of
validate_position). -/
def king_count (b : Board) (color : Color) : Nat :=
  ((List.range 64).filter fun i =>
    b.squares.getD i none = some (Piece.King, color)).length

/-- Whether some file of the given rank holds a pawn (the pawn loop of
validate_position). -/
def pawn_on_rank (b : Board) (rank : Nat) : Bool :=
  (List.range 8).any fun file =>
    match b.squares.getD (rank * 8 + file) none with
    | some (Piece.Pawn, _) => true
    | _ => false

/-- validate_position from fen.rs. -/
def validate_position (position : Position) : Except ChessError Unit :=
  if king_count position.board Color.White = 0 then
    Except.error (ChessError.InvalidFen "White king not found")
  else if king_count position.board Color.White > 1 then
    Except.error (ChessError.InvalidFen "Multiple white kings found")
  else if king_count position.board Color.Black = 0 then
    Except.error (ChessError.InvalidFen "Black king not found")
  else if king_count position.board Color.Black > 1 then
    Except.error (ChessError.InvalidFen "Multiple black kings found")
  else if pawn_on_rank position.board 0 then
    Except.error (ChessError.InvalidFen "Pawn on rank 1")
  else if pawn_on_rank position.board 7 then
    Except.error (ChessError.InvalidFen "Pawn on rank 8")
  else if (match position.en_passant_target with
    | some ep_square =>
        let expected_rank : Nat := if position.side_to_move = Color.White then 5 else 2
        decide (ep_square.rank ≠ expected_rank)
    | none => false) then
    Except.error (ChessError.InvalidFen "Invalid en passant square")
  else if position.castling_rights.white_kingside ∧
      ¬ (position.board.get (sqIdx 4) = some (Piece.King, Color.White) ∧
         position.board.get (sqIdx 7) = some (Piece.Rook, Color.White)) then
    Except.error (ChessError.InvalidFen "White kingside castling right inconsistent")
  else if position.castling_rights.white_queenside ∧
      ¬ (position.board.get (sqIdx 4) = some (Piece.King, Color.White) ∧
         position.board.get (sqIdx 0) = some (Piece.Rook, Color.White)) then
    Except.error (ChessError.InvalidFen "White queenside castling right inconsistent")
  else if position.castling_rights.black_kingside ∧
      ¬ (position.board.get (sqIdx 60) = some (Piece.King, Color.Black) ∧
         position.board.get (sqIdx 63) = some (Piece.Rook, Color.Black)) then
    Except.error (ChessError.InvalidFen "Black kingside castling right inconsistent")
  else if position.castling_rights.black_queenside ∧
      ¬ (position.board.get (sqIdx 60) = some (Piece.King, Color.Black) ∧
         position.board.get (sqIdx 56) = some (Piece.Rook, Color.Black)) then
    Except.error (ChessError.InvalidFen "Black queenside castling right inconsistent")
  else Except.ok ()

/-- The position parse_fen builds before validating: Position::empty with
the six parsed fields assigned (the history of the empty position is
empty). -/
def assemble_position (board : Board) (side_to_move : Color)
    (castling_rights : CastlingRights) (en_passant_target : Option Square)
    (halfmove_clock fullmove_number : Nat) : Position :=
  { board := board
    side_to_move := side_to_move
    castling_rights := castling_rights
    en_passant_target := en_passant_target
    halfmove_clock := halfmove_clock
    fullmove_number := fullmove_number
    position_history := [] }

/-- The history initialisation at the end of parse_fen: push the hash of
the freshly parsed position. -/
def finalize_position (p : Position) : Position :=
  { p with position_history := p.position_history ++ [p.compute_zobrist_hash] }

/-- parse_fen from fen.rs. -/
def parse_fen (fen : String) : Except ChessError Position :=
  match split_whitespace fen.data with
  | [f0, f1, f2, f3, f4, f5] =>
    (match parse_piece_placement f0 with
     | Except.error e => Except.error e
     | Except.ok board =>
     match parse_active_color f1 with
     | Except.error e => Except.error e
     | Except.ok side_to_move =>
     match parse_castling_rights f2 with
     | Except.error e => Except.error e
     | Except.ok castling_rights =>
     match parse_en_passant f3 with
     | Except.error e => Except.error e
     | Except.ok en_passant_target =>
     match parse_u32 f4 with
     | none => Except.error (ChessError.InvalidFen "Invalid halfmove clock")
     | some halfmove_clock =>
     match parse_u32 f5 with
     | none => Except.error (ChessError.InvalidFen "Invalid fullmove number")
     | some fullmove_number =>
     match validate_position (assemble_position board side_to_move castling_rights
         en_passant_target halfmove_clock fullmove_number) with
     | Except.error e => Except.error e
     | Except.ok _ =>
         Except.ok (finalize_position (assemble_position board side_to_move castling_rights
           en_passant_target halfmove_clock fullmove_number)))
  | _ => Except.error (ChessError.InvalidFen "Expected 6 fields")

/-- The loop of the decimal printer modelling u32::to_string: emit the
digits of n most-significant first in front of acc.  The fuel argument
only bounds the recursion; n + 1 iterations always suffice. -/
def u32_chars_core : Nat → Nat → List Char → List Char
  | 0, _, acc => acc
  | fuel + 1, n, acc =>
      if n < 10 then Char.ofNat (48 + n) :: acc
      else u32_chars_core fuel (n / 10) (Char.ofNat (48 + n % 10) :: acc)

/-- The decimal digit characters of a number, most significant first: the
model of u32::to_string. -/
def u32_chars (n : Nat) : List Char := u32_chars_core (n + 1) n []

/-- The run-length encoder of one board rank in position_to_fen: cells are
scanned file 0 to 7 with a pending empty-square count. -/
def encode_rank_aux : List (Option (Piece × Color)) → Nat → List Char
  | [], empty_count => if empty_count > 0 then u32_chars empty_count else []
  | none :: rest, empty_count => encode_rank_aux rest (empty_count + 1)
  | some (piece, color) :: rest, empty_count =>
      (if empty_count > 0 then u32_chars empty_count else []) ++
        piece_to_fen_char piece color :: encode_rank_aux rest 0

/-- The cells of one board rank, file 0 to 7, as read by position_to_fen
through from_rank_file and Board::get. -/
def board_row (board : Board) (rank : Nat) : List (Option (Piece × Color)) :=
  (List.range 8).map fun file => board.squares.getD (rank * 8 + file) none

/-- The piece-placement field of position_to_fen: ranks 7 down to 0,
separated by '/'. -/
def encode_placement (board : Board) : List Char :=
  let rank_strings := [7, 6, 5, 4, 3, 2, 1, 0].map fun r => encode_rank_aux (board_row board r) 0
  (rank_strings.intersperse ['/']).flatten

/-- The castling field of position_to_fen. -/
def encode_castling (rights : CastlingRights) : List Char :=
  let castling :=
    (if rights.white_kingside then ['K'] else []) ++
    (if rights.white_queenside then ['Q'] else []) ++
    (if rights.black_kingside then ['k'] else []) ++
    (if rights.black_queenside then ['q'] else [])
  if castling.isEmpty then ['-'] else castling

/-- position_to_fen from fen.rs, assembled field by field with single
spaces, exactly as the source appends to its output string. -/
def position_to_fen (position : Position) : String :=
  String.mk (encode_placement position.board ++
    ' ' :: (if position.side_to_move = Color.White then ['w'] else ['b']) ++
    ' ' :: encode_castling position.castling_rights ++
    ' ' :: (match position.en_passant_target with
      | some ep_square => ep_square.to_algebraic_chars
      | none => ['-']) ++
    ' ' :: u32_chars position.halfmove_clock ++
    ' ' :: u32_chars position.fullmove_number)

/-- The derived Debug rendering of GameStatus (used in the GameOver error
payload). -/
def game_status_debug : GameStatus → String
  | GameStatus.InProgress => "InProgress"
  | GameStatus.Check => "Check"
  | GameStatus.Checkmate Color.White => "Checkmate \x7b winner: White \x7d"
  | GameStatus.Checkmate Color.Black => "Checkmate \x7b winner: Black \x7d"
  | GameStatus.Stalemate => "Stalemate"
  | GameStatus.DrawByFiftyMoveRule => "DrawByFiftyMoveRule"
  | GameStatus.DrawByInsufficientMaterial => "DrawByInsufficientMaterial"
  | GameStatus.DrawByRepetition => "DrawByRepetition"

/-- ChessGame from game.rs. -/
structure ChessGame : Type where
  position : Position
  move_history : List Move
  position_snapshots : List Position
  status : GameStatus
deriving DecidableEq, Repr

/-- ChessGame::compute_game_status_static. -/
def compute_game_status_static (position : Position) : GameStatus :=
  if is_checkmate position then
    GameStatus.Checkmate position.side_to_move.opposite
  else if is_stalemate position then GameStatus.Stalemate
  else if position.halfmove_clock ≥ 100 then GameStatus.DrawByFiftyMoveRule
  else if position.has_insufficient_material then GameStatus.DrawByInsufficientMaterial
  else if position.is_repetition then GameStatus.DrawByRepetition
  else if is_in_check position position.side_to_move then GameStatus.Check
  else GameStatus.InProgress

/-- ChessGame::new. -/
def ChessGame.new : ChessGame :=
  let position := Position.new
  { position := position
    move_history := []
    position_snapshots := []
    status := compute_game_status_static position }

/-- ChessGame::from_fen. -/
def ChessGame.from_fen (fen : String) : Except ChessError ChessGame :=
  match parse_fen fen with
  | Except.error e => Except.error e
  | Except.ok position =>
      Except.ok
        { position := position
          move_history := []
          position_snapshots := []
          status := compute_game_status_static position }

/-- ChessGame::get_legal_moves. -/
def ChessGame.get_legal_moves (g : ChessGame) : List Move :=
  match g.status with
  | GameStatus.InProgress => generate_legal_moves g.position
  | GameStatus.Check => generate_legal_moves g.position
  | _ => []

/-- ChessGame::get_legal_moves_for_square. -/
def ChessGame.get_legal_moves_for_square (g : ChessGame) (square : Square) : List Move :=
  g.get_legal_moves.filter fun mv => mv.from' = square

/-- ChessGame::to_fen. -/
def ChessGame.to_fen (g : ChessGame) : String :=
  position_to_fen g.position

/-- ChessGame::apply_normal_move (mutation of self.position). -/
def apply_normal_move (position : Position) (mv : Move) : Position :=
  let piece := position.board.get mv.from'
  let board := position.board.set mv.from' none
  let board :=
    match mv.promotion with
    | some promotion_piece =>
      match piece with
      | some (_, color) => board.set mv.to' (some (promotion_piece, color))
      | none => board
    | none => board.set mv.to' piece
  { position with board := board }

/-- ChessGame::apply_castling: the king and rook presence checks run before
any board mutation; on error the position is untouched (exactly as in the
source, which returns before its first write). -/
def apply_castling (position : Position) (mv : Move) : Except ChessError Position :=
  let rank := mv.from'.rank
  let king := position.board.get mv.from'
  match king with
  | some (Piece.King, king_color) =>
    let rook_squares :=
      if mv.to'.file > mv.from'.file then
        (Square.from_rank_file rank 7, Square.from_rank_file rank 5)
      else
        (Square.from_rank_file rank 0, Square.from_rank_file rank 3)
    match rook_squares with
    | (some rook_from, some rook_to) =>
      let rook := position.board.get rook_from
      if rook = some (Piece.Rook, king_color) then
        let board := (position.board.set mv.from' none).set mv.to' king
        let board := (board.set rook_from none).set rook_to rook
        Except.ok { position with board := board }
      else
        Except.error (ChessError.InvalidMove "Rook not found at expected position for castling")
    | _ =>
        -- unreachable: mv.from is on the board, so its rank is below 8
        Except.error (ChessError.InvalidMove "Rook not found at expected position for castling")
  | _ =>
      Except.error (ChessError.InvalidMove "King not found at castling origin square")

/-- ChessGame::apply_en_passant.  The u8 computation mv.to.rank() - 1 wraps
for to.rank = 0 (release-mode semantics, reproduced with the explicit
mod 256), and from_rank_file then rejects the wrapped rank. -/
def apply_en_passant (position : Position) (mv : Move) : Position :=
  let pawn := position.board.get mv.from'
  let board := (position.board.set mv.from' none).set mv.to' pawn
  let captured_pawn_rank : Nat :=
    if position.side_to_move = Color.White then (mv.to'.rank + 255) % 256
    else (mv.to'.rank + 1) % 256
  match Square.from_rank_file captured_pawn_rank mv.to'.file with
  | some captured_square => { position with board := board.set captured_square none }
  | none => { position with board := board }

/-- ChessGame::update_en_passant_target. -/
def update_en_passant_target (position : Position) (mv : Move) : Position :=
  match position.board.get mv.to' with
  | some (Piece.Pawn, _) =>
    let from_rank := mv.from'.rank
    let to_rank := mv.to'.rank
    if Nat.dist from_rank to_rank = 2 then
      let ep_rank := (from_rank + to_rank) / 2
      { position with en_passant_target := Square.from_rank_file ep_rank mv.from'.file }
    else
      { position with en_passant_target := none }
  | _ => { position with en_passant_target := none }

/-- ChessGame::update_halfmove_clock (reads the last snapshot to detect a
capture; the u32 increment is reduced mod 2^32). -/
def update_halfmove_clock (position : Position) (snapshots : List Position) (mv : Move) : Position :=
  let is_pawn_move :=
    match position.board.get mv.to' with
    | some (piece, _) => piece = Piece.Pawn
    | none => false
  let is_capture :=
    (match snapshots.getLast? with
     | some last_pos => (last_pos.board.get mv.to').isSome
     | none => false) || mv.is_en_passant
  if is_pawn_move || is_capture then
    { position with halfmove_clock := 0 }
  else
    { position with halfmove_clock := (position.halfmove_clock + 1) % (2 ^ 32) }

/-- ChessGame::apply_move_to_position: board effect, then castling-rights
update (on the already-moved board), en-passant target, halfmove clock,
fullmove number, side to move, and the new position hash. -/
def apply_move_to_position (position : Position) (snapshots : List Position) (mv : Move) :
    Except ChessError Position :=
  let applied :=
    if mv.is_castling then apply_castling position mv
    else if mv.is_en_passant then Except.ok (apply_en_passant position mv)
    else Except.ok (apply_normal_move position mv)
  match applied with
  | Except.error e => Except.error e
  | Except.ok position =>
    let position := position.update_castling_rights_after_move mv
    let position := update_en_passant_target position mv
    let position := update_halfmove_clock position snapshots mv
    let position :=
      if position.side_to_move = Color.Black then
        { position with fullmove_number := (position.fullmove_number + 1) % (2 ^ 32) }
      else position
    let position := { position with side_to_move := position.side_to_move.opposite }
    let hash := position.compute_zobrist_hash
    Except.ok { position with position_history := position.position_history ++ [hash] }

/-- The part of ChessGame::make_move after the game-over guard: legality
check, snapshot push (append of the current position), move application
popping the just-pushed snapshot again on failure (dropLast of the
append), history push and status recomputation. -/
def ChessGame.make_move_checked (g : ChessGame) (mv : Move) :
    Except ChessError Unit × ChessGame :=
  if ¬ is_legal_move g.position mv then
    (Except.error (ChessError.InvalidMove ("Move " ++ mv.to_uci ++ " is not legal")), g)
  else
    match apply_move_to_position g.position (g.position_snapshots ++ [g.position]) mv with
    | Except.error e =>
        (Except.error e,
          { g with position_snapshots := (g.position_snapshots ++ [g.position]).dropLast })
    | Except.ok position =>
        (Except.ok (),
          { g with
            position := position
            move_history := g.move_history ++ [mv]
            position_snapshots := g.position_snapshots ++ [g.position]
            status := compute_game_status_static position })

/-- ChessGame::make_move.  The pair returned is (the Rust return value, the
state of self after the call). -/
def ChessGame.make_move (g : ChessGame) (mv : Move) : Except ChessError Unit × ChessGame :=
  match g.status with
  | GameStatus.InProgress => ChessGame.make_move_checked g mv
  | GameStatus.Check => ChessGame.make_move_checked g mv
  | s => (Except.error (ChessError.GameOver (game_status_debug s)), g)

/-- ChessGame::undo_move: pop the last snapshot into the position, pop the
move history, recompute the status from the restored position. -/
def ChessGame.undo_move (g : ChessGame) : Except ChessError Unit × ChessGame :=
  match g.position_snapshots.getLast? with
  | none => (Except.error (ChessError.InvalidMove "No moves to undo"), g)
  | some previous =>
      (Except.ok (),
        { g with
          position := previous
          position_snapshots := g.position_snapshots.dropLast
          move_history := g.move_history.dropLast
          status := compute_game_status_static previous })

/-- The perft helper of tests.rs: count the sequences of legal moves of the
given depth, applying each move with apply_move_for_perft before recursing. -/
def apply_move_for_perft (position : Position) (mv : Move) : Position :=
  -- castling rights are updated first, on the still-unmoved board
  let position := position.update_castling_rights_after_move mv
  -- en passant capture removal (same u8 wrap note as apply_en_passant)
  let position :=
    if mv.is_en_passant then
      let captured_pawn_rank : Nat :=
        if position.side_to_move = Color.White then (mv.to'.rank + 255) % 256
        else (mv.to'.rank + 1) % 256
      match Square.from_rank_file captured_pawn_rank mv.to'.file with
      | some captured_square => { position with board := position.board.set captured_square none }
      | none => position
    else position
  -- castling rook move
  let position :=
    if mv.is_castling then
      let rank := mv.from'.rank
      if mv.to'.file > mv.from'.file then
        match Square.from_rank_file rank 7, Square.from_rank_file rank 5 with
        | some rook_from, some rook_to =>
            let rook := position.board.get rook_from
            { position with board := (position.board.set rook_from none).set rook_to rook }
        | _, _ => position
      else
        match Square.from_rank_file rank 0, Square.from_rank_file rank 3 with
        | some rook_from, some rook_to =>
            let rook := position.board.get rook_from
            { position with board := (position.board.set rook_from none).set rook_to rook }
        | _, _ => position
    else position
  -- move the piece (with promotion substitution)
  let piece := position.board.get mv.from'
  let board := position.board.set mv.from' none
  let board :=
    match mv.promotion with
    | some promotion_piece =>
      match piece with
      | some (_, color) => board.set mv.to' (some (promotion_piece, color))
      | none => board
    | none => board.set mv.to' piece
  let position := { position with board := board }
  -- en passant target
  let position :=
    match position.board.get mv.to' with
    | some (Piece.Pawn, _) =>
      if Nat.dist mv.from'.rank mv.to'.rank = 2 then
        { position with
          en_passant_target := Square.from_rank_file ((mv.from'.rank + mv.to'.rank) / 2) mv.from'.file }
      else { position with en_passant_target := none }
    | _ => { position with en_passant_target := none }
  { position with side_to_move := position.side_to_move.opposite }

/-- perft from tests.rs. -/
def perft (position : Position) : Nat → Nat
  | 0 => 1
  | 1 => (generate_legal_moves position).length
  | depth + 1 =>
      ((generate_legal_moves position).map fun mv =>
        perft (apply_move_for_perft position mv) depth).sum

/-- STARTING_FEN from fen.rs. -/
def STARTING_FEN : String := "rnbqkbnr/pppppppp/8/8/8/8/PPPPPPPP/RNBQKBNR w KQkq - 0 1"

/-- The game-status derivation as worded by the specification, first match
wins: checkmate, stalemate, fifty-move rule, insufficient material,
repetition, check, in progress. -/
def spec_game_status (p : Position) : GameStatus :=
  if generate_legal_moves p = [] ∧ is_in_check p p.side_to_move = true then
    GameStatus.Checkmate p.side_to_move.opposite
  else if generate_legal_moves p = [] ∧ is_in_check p p.side_to_move = false then
    GameStatus.Stalemate
  else if 100 ≤ p.halfmove_clock then GameStatus.DrawByFiftyMoveRule
  else if p.has_insufficient_material = true then GameStatus.DrawByInsufficientMaterial
  else if p.is_repetition = true then GameStatus.DrawByRepetition
  else if is_in_check p p.side_to_move = true then GameStatus.Check
  else GameStatus.InProgress

/-- The square on the castling rank of a color at the given file (reduced
mod 8; it is only used with literal files below 8). -/
def castle_square (color : Color) (file : Nat) : Square :=
  ⟨⟨(if color = Color.White then 0 else 7) * 8 + file % 8, by split <;> omega⟩⟩

/-- The castling-legality conditions as worded by the specification: the
matching right is set (kingside exactly when the destination file exceeds
the origin file); the king stands on its home square and the matching rook
on its home corner; the squares strictly between them are empty; the side
to move is not in check; and neither the square the king passes through nor
the square it lands on is attacked by the opponent. -/
def spec_castling_legal (p : Position) (mv : Move) : Prop :=
  let color := p.side_to_move
  let kingside : Bool := decide (mv.to'.file > mv.from'.file)
  p.castling_rights.can_castle color kingside = true ∧
  p.board.get (castle_square color 4) = some (Piece.King, color) ∧
  p.board.get (castle_square color (if kingside then 7 else 0)) = some (Piece.Rook, color) ∧
  (∀ f ∈ (if kingside then [5, 6] else [(1 : Nat), 2, 3]),
    p.board.is_empty (castle_square color f) = true) ∧
  is_in_check p color = false ∧
  p.board.is_attacked_by (castle_square color (if kingside then 5 else 3)) color.opposite = false ∧
  p.board.is_attacked_by (castle_square color (if kingside then 6 else 2)) color.opposite = false

/-- The ChessGame states reachable through the public constructors and the
two mutating operations (each step keeps the state that the call leaves
behind, whether it returns Ok or an error). -/
inductive Reachable : ChessGame → Prop
  | new : Reachable ChessGame.new
  | from_fen (s : String) (g : ChessGame) : ChessGame.from_fen s = Except.ok g → Reachable g
  | make (g : ChessGame) (mv : Move) : Reachable g → Reachable (g.make_move mv).2
  | undo (g : ChessGame) : Reachable g → Reachable g.undo_move.2

/-- Fixture helper: the game decoded from a FEN string (falling back to the
initial game on a parse error; every fixture below parses successfully). -/
def game_of_fen (s : String) : ChessGame :=
  match ChessGame.from_fen s with
  | Except.ok g => g
  | Except.error _ => ChessGame.new

/-- Fixture: the double pawn push e2-e4. -/
def mv_e2e4 : Move := Move.new (sqIdx 12) (sqIdx 28)

/-- Fixture: the illegal king teleport e1-e7 (the white king would stand
next to the black king). -/
def mv_e1e7 : Move := Move.new (sqIdx 4) (sqIdx 52)

/-- Fixture for C1: white king e1, white rook h1 with the kingside right,
black king e8. -/
def c1_game : ChessGame := game_of_fen "4k3/8/8/8/8/8/8/4K2R w K - 0 1"

/-- Fixture for C1: the king move e1-e2. -/
def c1_move : Move := Move.new (sqIdx 4) (sqIdx 12)

/-- Fixture for C9: white king a1 and rook b1, black king h8. -/
def c9_game : ChessGame := game_of_fen "7k/8/8/8/8/8/8/KR6 w - - 0 1"

/-- Fixture for C9: the rook jumps like a knight from b1 to c3 - a move the
generator never produces. -/
def c9_move : Move := Move.new (sqIdx 1) (sqIdx 18)

/-- Fixture for C6: both sides may castle both ways. -/
def c6_game : ChessGame := game_of_fen "r3k2r/8/8/8/8/8/8/R3K2R w KQkq - 0 1"

/-- Fixture for C6: white castles kingside (e1-g1). -/
def c6_move : Move := ⟨sqIdx 4, sqIdx 6, none, true, false⟩

/-- Fixture: the position parsed from the starting FEN. -/
def start_position : Position :=
  match parse_fen STARTING_FEN with
  | Except.ok p => p
  | Except.error _ => Position.empty

/-- No two adjacent characters are both digits: the minimal-digit-run
condition of a canonical FEN rank. -/
def minimal_digit_runs : List Char → Bool
  | [] => true
  | [_] => true
  | a :: b :: t => (!(a.isDigit && b.isDigit)) && minimal_digit_runs (b :: t)

/-- The sixteen canonical castling fields: "-" or a non-empty subsequence
of KQkq in that order. -/
def canonical_castling_fields : List (List Char) :=
  [['-'],
   ['K'], ['Q'], ['k'], ['q'],
   ['K', 'Q'], ['K', 'k'], ['K', 'q'], ['Q', 'k'], ['Q', 'q'], ['k', 'q'],
   ['K', 'Q', 'k'], ['K', 'Q', 'q'], ['K', 'k', 'q'], ['Q', 'k', 'q'],
   ['K', 'Q', 'k', 'q']]

/-- A canonical FEN string in the sense of the round-trip claim: six fields
joined by single spaces (each field non-empty and free of whitespace), the
placement made of eight '/'-separated ranks with minimal digit runs, the
castling field a subsequence of KQkq (or "-"), and the two counters written
as canonical decimal numerals (no leading zeros, no sign). -/
def canonical_fen (s : String) : Prop :=
  ∃ (ranks : List (List Char)) (f1 f2 f3 : List Char) (n4 n5 : Nat),
    s.data = (ranks.intersperse ['/']).flatten ++ ' ' :: f1 ++ ' ' :: f2 ++ ' ' :: f3 ++
      ' ' :: u32_chars n4 ++ ' ' :: u32_chars n5 ∧
    ranks.length = 8 ∧
    (∀ r ∈ ranks, r ≠ [] ∧ '/' ∉ r ∧ (∀ c ∈ r, c.isWhitespace = false) ∧
      minimal_digit_runs r = true) ∧
    f1 ≠ [] ∧ (∀ c ∈ f1, c.isWhitespace = false) ∧
    f2 ∈ canonical_castling_fields ∧
    f3 ≠ [] ∧ (∀ c ∈ f3, c.isWhitespace = false)

/-! Structural lemmas about make_move and undo_move. -/

theorem make_move_checked_error_eq (g : ChessGame) (mv : Move) (e : ChessError)
    (h : (g.make_move_checked mv).1 = Except.error e) : (g.make_move_checked mv).2 = g := by
  unfold ChessGame.make_move_checked at *
  by_cases hl : is_legal_move g.position mv
  · rw [if_neg (by simp [hl])] at h ⊢
    cases happ : apply_move_to_position g.position (g.position_snapshots ++ [g.position]) mv with
    | error e2 => simp [List.dropLast_concat]
    | ok p =>
        rw [happ] at h
        exact absurd h (by simp)
  · rw [if_pos (by simp [hl])]

theorem make_move_error_eq (g : ChessGame) (mv : Move) (e : ChessError)
    (h : (g.make_move mv).1 = Except.error e) : (g.make_move mv).2 = g := by
  unfold ChessGame.make_move at *
  cases hs : g.status <;> simp only [hs] at h ⊢ <;>
    first
      | rfl
      | exact make_move_checked_error_eq g mv e h

theorem make_move_ok_eq (g : ChessGame) (mv : Move)
    (h : (g.make_move mv).1 = Except.ok ()) :
    ∃ p, apply_move_to_position g.position (g.position_snapshots ++ [g.position]) mv =
        Except.ok p ∧
      (g.make_move mv).2 =
        { position := p
          move_history := g.move_history ++ [mv]
          position_snapshots := g.position_snapshots ++ [g.position]
          status := compute_game_status_static p } := by
  unfold ChessGame.make_move at *
  cases hs : g.status <;> simp only [hs] at h ⊢ <;>
    try exact absurd h (by simp)
  all_goals
    unfold ChessGame.make_move_checked at h ⊢
    by_cases hl : is_legal_move g.position mv
    case neg =>
      rw [if_pos (by simp [hl])] at h
      exact absurd h (by simp)
    all_goals
      rw [if_neg (by simp [hl])] at h ⊢
      cases happ : apply_move_to_position g.position (g.position_snapshots ++ [g.position]) mv with
      | error e2 =>
          rw [happ] at h
          exact absurd h (by simp)
      | ok p => exact ⟨p, rfl, rfl⟩

theorem undo_move_error_eq (g : ChessGame) (e : ChessError)
    (h : g.undo_move.1 = Except.error e) :
    g.undo_move.2 = g ∧ g.position_snapshots = [] := by
  unfold ChessGame.undo_move at *
  cases hlast : g.position_snapshots.getLast? with
  | none => exact ⟨rfl, List.getLast?_eq_none_iff.mp hlast⟩
  | some prev =>
      rw [hlast] at h
      exact absurd h (by simp)

theorem undo_move_ok_eq (g : ChessGame)
    (h : g.undo_move.1 = Except.ok ()) :
    ∃ prev, g.position_snapshots.getLast? = some prev ∧
      g.undo_move.2 =
        { position := prev
          move_history := g.move_history.dropLast
          position_snapshots := g.position_snapshots.dropLast
          status := compute_game_status_static prev } := by
  unfold ChessGame.undo_move at *
  cases hlast : g.position_snapshots.getLast? with
  | none =>
      rw [hlast] at h
      exact absurd h (by simp)
  | some prev => exact ⟨prev, rfl, rfl⟩

/-- C2: whenever make_move returns an error (GameOver or InvalidMove), the
game is left unchanged: the encoded position is byte-for-byte identical,
and the position, move history, snapshot stack and status all equal their
prior values. -/
theorem make_move_failure_leaves_game_unchanged (g : ChessGame) (mv : Move) (e : ChessError)
    (h : (g.make_move mv).1 = Except.error e) :
    (g.make_move mv).2.to_fen = g.to_fen ∧
    (g.make_move mv).2.position = g.position ∧
    (g.make_move mv).2.move_history = g.move_history ∧
    (g.make_move mv).2.position_snapshots = g.position_snapshots ∧
    (g.make_move mv).2.status = g.status := by
  rw [make_move_error_eq g mv e h]
  exact ⟨rfl, rfl, rfl, rfl, rfl⟩

/-- Witness for C2: the king teleport e1-e7 from the initial position is
rejected and leaves the game unchanged. -/
theorem make_move_failure_leaves_game_unchanged_witness :
    (ChessGame.new.make_move mv_e1e7).2.to_fen = ChessGame.new.to_fen ∧
    (ChessGame.new.make_move mv_e1e7).2.position = ChessGame.new.position ∧
    (ChessGame.new.make_move mv_e1e7).2.move_history = ChessGame.new.move_history ∧
    (ChessGame.new.make_move mv_e1e7).2.position_snapshots = ChessGame.new.position_snapshots ∧
    (ChessGame.new.make_move mv_e1e7).2.status = ChessGame.new.status :=
  make_move_failure_leaves_game_unchanged ChessGame.new mv_e1e7
    (ChessError.InvalidMove "Move e1e7 is not legal") (by rfl)

/-- C3: after a successful make_move, undo_move succeeds and the encoded
position is byte-identical to the encoding taken before the pair of calls
(the snapshot popped by undo is exactly the position pushed by make). -/
theorem make_move_undo_restores_fen (g : ChessGame) (mv : Move)
    (h : (g.make_move mv).1 = Except.ok ()) :
    ((g.make_move mv).2.undo_move).1 = Except.ok () ∧
    ((g.make_move mv).2.undo_move).2.to_fen = g.to_fen ∧
    ((g.make_move mv).2.undo_move).2.position = g.position := by
  obtain ⟨p, _, hstate⟩ := make_move_ok_eq g mv h
  rw [hstate]
  unfold ChessGame.undo_move
  simp [List.getLast?_concat, ChessGame.to_fen]

/-- Witness for C3: e2-e4 from the initial position, then undo. -/
theorem make_move_undo_restores_fen_witness :
    ((ChessGame.new.make_move mv_e2e4).2.undo_move).1 = Except.ok () ∧
    ((ChessGame.new.make_move mv_e2e4).2.undo_move).2.to_fen = ChessGame.new.to_fen ∧
    ((ChessGame.new.make_move mv_e2e4).2.undo_move).2.position = ChessGame.new.position :=
  make_move_undo_restores_fen ChessGame.new mv_e2e4 (by rfl)

/-- The reachable-state invariant behind C10: the move history and the
snapshot stack always have the same length. -/
theorem reachable_lengths_eq (g : ChessGame) (h : Reachable g) :
    g.move_history.length = g.position_snapshots.length := by
  induction h with
  | new => rfl
  | from_fen s g hok =>
      unfold ChessGame.from_fen at hok
      cases hp : parse_fen s with
      | error e =>
          rw [hp] at hok
          exact absurd hok (by simp)
      | ok p =>
          rw [hp] at hok
          cases hok
          rfl
  | make g mv _ ih =>
      cases hr : (g.make_move mv).1 with
      | error e => rw [make_move_error_eq g mv e hr]; exact ih
      | ok u =>
          cases u
          obtain ⟨p, _, hstate⟩ := make_move_ok_eq g mv hr
          rw [hstate]
          simp [ih]
  | undo g _ ih =>
      cases hr : g.undo_move.1 with
      | error e => rw [(undo_move_error_eq g e hr).1]; exact ih
      | ok u =>
          cases u
          obtain ⟨prev, _, hstate⟩ := undo_move_ok_eq g hr
          rw [hstate]
          simp [ih]

/-- C10: in every reachable game state the lengths of the move history and
the snapshot stack agree; make_move grows both by one exactly when it
returns Ok, and undo_move shrinks both by one exactly when it returns Ok. -/
theorem history_and_snapshots_in_step (g : ChessGame) (hg : Reachable g) :
    g.move_history.length = g.position_snapshots.length ∧
    (∀ mv, ((g.make_move mv).1 = Except.ok () →
        (g.make_move mv).2.move_history.length = g.move_history.length + 1 ∧
        (g.make_move mv).2.position_snapshots.length = g.position_snapshots.length + 1) ∧
      (∀ e, (g.make_move mv).1 = Except.error e →
        (g.make_move mv).2.move_history.length = g.move_history.length ∧
        (g.make_move mv).2.position_snapshots.length = g.position_snapshots.length)) ∧
    (g.undo_move.1 = Except.ok () →
        g.undo_move.2.move_history.length + 1 = g.move_history.length ∧
        g.undo_move.2.position_snapshots.length + 1 = g.position_snapshots.length) ∧
    (∀ e, g.undo_move.1 = Except.error e →
        g.undo_move.2.move_history.length = g.move_history.length ∧
        g.undo_move.2.position_snapshots.length = g.position_snapshots.length) := by
  refine ⟨reachable_lengths_eq g hg, ?_, ?_, ?_⟩
  · intro mv
    constructor
    · intro hok
      obtain ⟨p, _, hstate⟩ := make_move_ok_eq g mv hok
      rw [hstate]
      simp
    · intro e herr
      rw [make_move_error_eq g mv e herr]
      exact ⟨rfl, rfl⟩
  · intro hok
    obtain ⟨prev, hlast, hstate⟩ := undo_move_ok_eq g hok
    have hne : g.position_snapshots ≠ [] := by
      intro hnil
      rw [hnil] at hlast
      exact absurd hlast (by simp)
    have hlen1 : 0 < g.position_snapshots.length := List.length_pos.mpr hne
    have hlen2 : 0 < g.move_history.length := by
      rw [reachable_lengths_eq g hg]
      exact hlen1
    rw [hstate]
    refine ⟨?_, ?_⟩ <;>
      · simp only [List.length_dropLast]
        omega
  · intro e herr
    rw [(undo_move_error_eq g e herr).1]
    exact ⟨rfl, rfl⟩

/-- Witness for C10: instantiated at the initial game. -/
theorem history_and_snapshots_in_step_witness :
    ChessGame.new.move_history.length = ChessGame.new.position_snapshots.length :=
  (history_and_snapshots_in_step ChessGame.new Reachable.new).1

/-- The status computation of game.rs agrees pointwise with the first-match
precedence order worded by the specification. -/
theorem compute_status_eq_spec (p : Position) :
    compute_game_status_static p = spec_game_status p := by
  unfold compute_game_status_static spec_game_status is_checkmate is_stalemate
  by_cases hc : is_in_check p p.side_to_move <;>
    by_cases hm : generate_legal_moves p = [] <;>
      simp [hc, hm, List.isEmpty_iff, Bool.not_eq_true] at *

/-- C5: the derived status is the first matching case of the fixed order
(checkmate with the opponent as winner, stalemate, fifty-move rule,
insufficient material, repetition, check, in progress), and ChessGame
stores exactly this recomputed status after every successful make_move and
undo_move. -/
theorem game_status_precedence :
    (∀ p, compute_game_status_static p = spec_game_status p) ∧
    (∀ (g : ChessGame) (mv : Move), (g.make_move mv).1 = Except.ok () →
      (g.make_move mv).2.status = compute_game_status_static (g.make_move mv).2.position) ∧
    (∀ (g : ChessGame), g.undo_move.1 = Except.ok () →
      g.undo_move.2.status = compute_game_status_static g.undo_move.2.position) := by
  refine ⟨compute_status_eq_spec, ?_, ?_⟩
  · intro g mv hok
    obtain ⟨p, _, hstate⟩ := make_move_ok_eq g mv hok
    rw [hstate]
  · intro g hok
    obtain ⟨prev, _, hstate⟩ := undo_move_ok_eq g hok
    rw [hstate]

/-- Witness for C5: the status stored after e2-e4 is the recomputed one. -/
theorem game_status_precedence_witness :
    (ChessGame.new.make_move mv_e2e4).2.status =
      compute_game_status_static (ChessGame.new.make_move mv_e2e4).2.position :=
  game_status_precedence.2.1 ChessGame.new mv_e2e4 (by rfl)

/-- C9: for non-castling moves, is_legal_move is exactly the king-safety
simulation test - membership in the generated pseudo-legal moves plays no
part - and make_move therefore accepts some moves the generator never
produces (here a rook relocating like a knight). -/
theorem non_castling_legality_is_king_safety :
    (∀ (p : Position) (mv : Move), mv.is_castling = false →
      (is_legal_move p mv = true ↔
        is_in_check (apply_move_for_validation p mv) p.side_to_move = false)) ∧
    (∃ (g : ChessGame) (mv : Move), mv.is_castling = false ∧
      mv ∉ generate_pseudo_legal_moves g.position ∧
      (g.make_move mv).1 = Except.ok ()) := by
  constructor
  · intro p mv h
    unfold is_legal_move
    rw [h]
    simp [Bool.not_eq_true]
  · exact ⟨c9_game, c9_move, rfl, by decide, by rfl⟩

/-- Witness for C9: the first conjunct instantiated at the rook-teleport
fixture. -/
theorem non_castling_legality_is_king_safety_witness :
    is_legal_move c9_game.position c9_move = true ↔
      is_in_check (apply_move_for_validation c9_game.position c9_move)
        c9_game.position.side_to_move = false :=
  non_castling_legality_is_king_safety.1 c9_game.position c9_move rfl

/-- C6: for castling moves, is_legal_move holds exactly under the
specification's conjunction: matching right set, king and rook physically
at home, the squares between them empty, not currently in check, and the
transit and landing squares unattacked. -/
theorem castling_legality_iff_spec (p : Position) (mv : Move) (h : mv.is_castling = true) :
    is_legal_move p mv = true ↔ spec_castling_legal p mv := by
  unfold is_legal_move spec_castling_legal
  rw [h]
  by_cases hk : mv.to'.file > mv.from'.file
  · have hkb : decide (mv.to'.file > mv.from'.file) = true := decide_eq_true hk
    cases hcol : p.side_to_move
    · unfold can_castle_kingside
      simp only [hk, hkb, hcol, castle_square, if_true, if_false, List.mem_cons,
        List.mem_singleton, forall_eq_or_imp, forall_eq]
      norm_num
    · unfold can_castle_kingside
      simp only [hk, hkb, hcol, castle_square, if_true, if_false, List.mem_cons,
        List.mem_singleton, forall_eq_or_imp, forall_eq]
      norm_num
  · have hkb : decide (mv.to'.file > mv.from'.file) = false := decide_eq_false hk
    cases hcol : p.side_to_move
    · unfold can_castle_queenside
      simp only [hk, hkb, hcol, castle_square, if_true, if_false, List.mem_cons,
        List.mem_singleton, forall_eq_or_imp, forall_eq]
      norm_num
    · unfold can_castle_queenside
      simp only [hk, hkb, hcol, castle_square, if_true, if_false, List.mem_cons,
        List.mem_singleton, forall_eq_or_imp, forall_eq]
      norm_num

/-- Witness for C6: instantiated at a castle-ready position and the white
kingside castling move e1-g1. -/
theorem castling_legality_iff_spec_witness :
    is_legal_move c6_game.position c6_move = true ↔
      spec_castling_legal c6_game.position c6_move :=
  castling_legality_iff_spec c6_game.position c6_move rfl

/-- C1 (failing input): from the position with the white king on e1, the
white rook on h1 and the kingside right set, the legal king move e1-e2 is
accepted by make_move, yet white_kingside is still true afterwards: the
rights update runs on the already-moved board, so the king/rook checks at
mv.from read an empty square and never fire.  The claim requires both of
the mover's rights to be cleared after a king move. -/
theorem king_move_keeps_castling_right :
    c1_game.position.board.get (sqIdx 4) = some (Piece.King, Color.White) ∧
    c1_game.position.castling_rights.white_kingside = true ∧
    (c1_game.make_move c1_move).1 = Except.ok () ∧
    (c1_game.make_move c1_move).2.position.castling_rights.white_kingside = true :=
  ⟨by rfl, by rfl, by rfl, by rfl⟩

/-- A successfully expanded rank suffix fills the files from the running
counter up to exactly 8. -/
theorem expand_rank_aux_length (cs : List Char) :
    ∀ (file : Nat) (cells : List (Option (Piece × Color))),
      expand_rank_aux cs file = Except.ok cells →
      file ≤ 8 ∧ cells.length = 8 - file := by
  induction cs with
  | nil =>
      intro file cells h
      unfold expand_rank_aux at h
      split at h
      · rename_i h8
        cases h
        simp [h8]
      · exact absurd h (by simp)
  | cons c cs ih =>
      intro file cells h
      unfold expand_rank_aux at h
      split at h
      · exact absurd h (by simp)
      · split at h
        · -- digit branch: split the fen_digit_value match, then the bound
          -- check, then the recursive result
          split at h
          · rename_i k hval
            split at h
            · exact absurd h (by simp)
            · split at h
              · rename_i rest hrest
                cases h
                obtain ⟨hfle, hlen⟩ := ih _ rest hrest
                refine ⟨by omega, ?_⟩
                simp [List.length_append, List.length_replicate, hlen]
                omega
              · exact absurd h (by simp)
          · exact absurd h (by simp)
        · -- piece branch
          split at h
          · rename_i pc hpc
            split at h
            · rename_i rest hrest
              cases h
              obtain ⟨hfle, hlen⟩ := ih _ rest hrest
              refine ⟨by omega, ?_⟩
              simp [hlen]
              omega
            · exact absurd h (by simp)
          · exact absurd h (by simp)

/-- Every rank fed to a successful expand_ranks expands successfully. -/
theorem expand_ranks_mem (rs : List (List Char)) :
    ∀ rows, expand_ranks rs = Except.ok rows →
      ∀ r ∈ rs, ∃ cells, expand_rank r = Except.ok cells := by
  induction rs with
  | nil => intro rows _ r hr; exact absurd hr (by simp)
  | cons r0 rs ih =>
      intro rows h r hr
      unfold expand_ranks at h
      cases h0 : expand_rank r0 with
      | error e => rw [h0] at h; exact absurd h (by simp)
      | ok cells0 =>
          rw [h0] at h
          cases hrest : expand_ranks rs with
          | error e => rw [hrest] at h; exact absurd h (by simp)
          | ok rest =>
              rcases List.mem_cons.mp hr with rfl | hr2
              · exact ⟨cells0, h0⟩
              · exact ih rest hrest r hr2

/-- C7: a successful parse_fen certifies every validated property - six
whitespace-separated fields, eight ranks of exactly eight files, exactly
one king per color, no pawn on the first or last rank, an en-passant
square on the rank matching the side to move, and king and rook physically
at home for every asserted castling right.  Every input violating any of
them is rejected. -/
theorem parse_fen_success_properties (s : String) (p : Position)
    (h : parse_fen s = Except.ok p) :
    (split_whitespace s.data).length = 6 ∧
    (∀ f0 rest, split_whitespace s.data = f0 :: rest →
      (split_on_pred (fun c => c = '/') f0).length = 8 ∧
      ∀ r ∈ split_on_pred (fun c => c = '/') f0,
        ∃ cells, expand_rank r = Except.ok cells ∧ cells.length = 8) ∧
    king_count p.board Color.White = 1 ∧
    king_count p.board Color.Black = 1 ∧
    pawn_on_rank p.board 0 = false ∧
    pawn_on_rank p.board 7 = false ∧
    (∀ sq, p.en_passant_target = some sq →
      sq.rank = if p.side_to_move = Color.White then 5 else 2) ∧
    (p.castling_rights.white_kingside = true →
      p.board.get (sqIdx 4) = some (Piece.King, Color.White) ∧
      p.board.get (sqIdx 7) = some (Piece.Rook, Color.White)) ∧
    (p.castling_rights.white_queenside = true →
      p.board.get (sqIdx 4) = some (Piece.King, Color.White) ∧
      p.board.get (sqIdx 0) = some (Piece.Rook, Color.White)) ∧
    (p.castling_rights.black_kingside = true →
      p.board.get (sqIdx 60) = some (Piece.King, Color.Black) ∧
      p.board.get (sqIdx 63) = some (Piece.Rook, Color.Black)) ∧
    (p.castling_rights.black_queenside = true →
      p.board.get (sqIdx 60) = some (Piece.King, Color.Black) ∧
      p.board.get (sqIdx 56) = some (Piece.Rook, Color.Black)) := by
  unfold parse_fen at h
  split at h
  case h_2 => exact absurd h (by simp)
  case h_1 f0 f1 f2 f3 f4 f5 hsplit =>
  split at h <;> try exact Except.noConfusion h
  rename_i board hb
  split at h <;> try exact Except.noConfusion h
  rename_i side hc
  split at h <;> try exact Except.noConfusion h
  rename_i rights hr
  split at h <;> try exact Except.noConfusion h
  rename_i ep hep
  split at h <;> try exact Except.noConfusion h
  rename_i halfmove hh
  split at h <;> try exact Except.noConfusion h
  rename_i fullmove hf
  split at h <;> try exact Except.noConfusion h
  rename_i u hv
  cases h
  -- the board and validation facts
  unfold validate_position at hv
  set A := assemble_position board side rights ep halfmove fullmove with hA
  by_cases hk1 : king_count A.board Color.White = 0
  · rw [if_pos hk1] at hv; exact Except.noConfusion hv
  rw [if_neg hk1] at hv
  by_cases hk2 : king_count A.board Color.White > 1
  · rw [if_pos hk2] at hv; exact Except.noConfusion hv
  rw [if_neg hk2] at hv
  by_cases hk3 : king_count A.board Color.Black = 0
  · rw [if_pos hk3] at hv; exact Except.noConfusion hv
  rw [if_neg hk3] at hv
  by_cases hk4 : king_count A.board Color.Black > 1
  · rw [if_pos hk4] at hv; exact Except.noConfusion hv
  rw [if_neg hk4] at hv
  by_cases hp0 : pawn_on_rank A.board 0 = true
  · rw [if_pos hp0] at hv; exact Except.noConfusion hv
  rw [if_neg hp0] at hv
  by_cases hp7 : pawn_on_rank A.board 7 = true
  · rw [if_pos hp7] at hv; exact Except.noConfusion hv
  rw [if_neg hp7] at hv
  by_cases hepr : (match A.en_passant_target with
    | some ep_square =>
        decide (ep_square.rank ≠ if A.side_to_move = Color.White then 5 else 2)
    | none => false) = true
  · rw [if_pos hepr] at hv; exact Except.noConfusion hv
  rw [if_neg hepr] at hv
  by_cases hwk : A.castling_rights.white_kingside = true ∧
      ¬ (A.board.get (sqIdx 4) = some (Piece.King, Color.White) ∧
         A.board.get (sqIdx 7) = some (Piece.Rook, Color.White))
  · rw [if_pos hwk] at hv; exact Except.noConfusion hv
  rw [if_neg hwk] at hv
  by_cases hwq : A.castling_rights.white_queenside = true ∧
      ¬ (A.board.get (sqIdx 4) = some (Piece.King, Color.White) ∧
         A.board.get (sqIdx 0) = some (Piece.Rook, Color.White))
  · rw [if_pos hwq] at hv; exact Except.noConfusion hv
  rw [if_neg hwq] at hv
  by_cases hbk : A.castling_rights.black_kingside = true ∧
      ¬ (A.board.get (sqIdx 60) = some (Piece.King, Color.Black) ∧
         A.board.get (sqIdx 63) = some (Piece.Rook, Color.Black))
  · rw [if_pos hbk] at hv; exact Except.noConfusion hv
  rw [if_neg hbk] at hv
  by_cases hbq : A.castling_rights.black_queenside = true ∧
      ¬ (A.board.get (sqIdx 60) = some (Piece.King, Color.Black) ∧
         A.board.get (sqIdx 56) = some (Piece.Rook, Color.Black))
  · rw [if_pos hbq] at hv; exact Except.noConfusion hv
  simp only [hA, assemble_position] at hk1 hk2 hk3 hk4 hp0 hp7 hepr hwk hwq hbk hbq
  simp only [hA, finalize_position, assemble_position]
  refine ⟨by rw [hsplit]; rfl, ?_, by omega, by omega, ?_, ?_, ?_, ?_, ?_, ?_, ?_⟩
  · intro g0 rest hg
    rw [hsplit] at hg
    cases hg
    unfold parse_piece_placement at hb
    by_cases hlen : (split_on_pred (fun c => c = '/') f0).length ≠ 8
    · rw [if_pos hlen] at hb
      exact Except.noConfusion hb
    rw [if_neg hlen] at hb
    cases hex : expand_ranks (split_on_pred (fun c => c = '/') f0) with
    | error e =>
        rw [hex] at hb
        exact Except.noConfusion hb
    | ok rows =>
        refine ⟨by omega, ?_⟩
        intro r hrmem
        obtain ⟨cells, hcells⟩ := expand_ranks_mem _ rows hex r hrmem
        obtain ⟨_, hlen8⟩ := expand_rank_aux_length r 0 cells hcells
        exact ⟨cells, hcells, by omega⟩
  · simpa using Bool.of_not_eq_true hp0
  · simpa using Bool.of_not_eq_true hp7
  · intro sq hsq
    simp only [hsq] at hepr
    by_contra hne
    exact hepr (by simpa using hne)
  · intro hwkt
    by_contra hne
    exact hwk ⟨hwkt, fun hx => hne (by simpa using hx)⟩
  · intro hwqt
    by_contra hne
    exact hwq ⟨hwqt, fun hx => hne (by simpa using hx)⟩
  · intro hbkt
    by_contra hne
    exact hbk ⟨hbkt, fun hx => hne (by simpa using hx)⟩
  · intro hbqt
    by_contra hne
    exact hbq ⟨hbqt, fun hx => hne (by simpa using hx)⟩

/-- Witness for C7: the starting FEN parses and therefore satisfies every
validated property; shown here for the king counts and pawn ranks. -/
theorem parse_fen_success_properties_witness :
    king_count start_position.board Color.White = 1 ∧
    king_count start_position.board Color.Black = 1 ∧
    pawn_on_rank start_position.board 0 = false ∧
    pawn_on_rank start_position.board 7 = false :=
  let h := parse_fen_success_properties STARTING_FEN start_position (by rfl)
  ⟨h.2.2.1, h.2.2.2.1, h.2.2.2.2.1, h.2.2.2.2.2.1⟩

/-! Helper lemmas for the canonical FEN round trip (C4). -/

theorem u32_chars_core_spec :
    ∀ (fuel n : Nat) (acc : List Char), 0 < n → n < fuel →
      u32_chars_core fuel n acc =
        ((Nat.digits 10 n).reverse.map fun d => Char.ofNat (48 + d)) ++ acc := by
  intro fuel
  induction fuel with
  | zero => intro n acc _ h; omega
  | succ fuel ih =>
      intro n acc hn hlt
      unfold u32_chars_core
      by_cases h10 : n < 10
      · rw [if_pos h10]
        rw [Nat.digits_def' (by omega : (1 : Nat) < 10) hn]
        rw [Nat.div_eq_of_lt h10]
        simp [Nat.mod_eq_of_lt h10]
      · rw [if_neg h10]
        rw [ih (n / 10) _ (by omega) (by omega)]
        rw [Nat.digits_def' (by omega : (1 : Nat) < 10) hn]
        simp

theorem u32_chars_eq (n : Nat) :
    u32_chars n =
      if n = 0 then ['0']
      else ((Nat.digits 10 n).reverse.map fun d => Char.ofNat (48 + d)) := by
  by_cases h0 : n = 0
  · subst h0; rfl
  · rw [if_neg h0]
    unfold u32_chars
    rw [u32_chars_core_spec (n + 1) n [] (by omega) (by omega)]
    simp

theorem split_on_pred_ne_nil (q : Char → Bool) (l : List Char) :
    split_on_pred q l ≠ [] := by
  cases l with
  | nil => simp [split_on_pred]
  | cons c cs =>
      unfold split_on_pred
      cases h : split_on_pred q cs with
      | nil => simp
      | cons w ws => by_cases hq : q c <;> simp [hq]

theorem split_on_pred_no_sep (q : Char → Bool) (w : List Char)
    (hw : ∀ c ∈ w, q c = false) : split_on_pred q w = [w] := by
  induction w with
  | nil => rfl
  | cons c cs ih =>
      unfold split_on_pred
      rw [ih (fun c hc => hw c (List.mem_cons_of_mem _ hc))]
      simp [hw c (List.mem_cons_self c cs)]

theorem split_on_pred_word (q : Char → Bool) (w rest : List Char) (sep : Char)
    (hw : ∀ c ∈ w, q c = false) (hsep : q sep = true) :
    split_on_pred q (w ++ sep :: rest) = w :: split_on_pred q rest := by
  induction w with
  | nil =>
      simp only [List.nil_append]
      conv_lhs => rw [split_on_pred]
      cases h : split_on_pred q rest with
      | nil => exact absurd h (split_on_pred_ne_nil q rest)
      | cons w2 ws => simp [hsep]
  | cons c cs ih =>
      have hc := hw c (List.mem_cons_self c cs)
      have ih2 := ih (fun c hc2 => hw c (List.mem_cons_of_mem _ hc2))
      simp only [List.cons_append]
      conv_lhs => rw [split_on_pred]
      rw [ih2]
      simp [hc]

theorem split_whitespace_word (w rest : List Char)
    (hne : w ≠ []) (hw : ∀ c ∈ w, c.isWhitespace = false) :
    split_whitespace (w ++ ' ' :: rest) = w :: split_whitespace rest := by
  unfold split_whitespace
  rw [split_on_pred_word Char.isWhitespace w rest ' ' hw (by decide)]
  simp [hne]

theorem split_whitespace_last (w : List Char)
    (hne : w ≠ []) (hw : ∀ c ∈ w, c.isWhitespace = false) :
    split_whitespace w = [w] := by
  unfold split_whitespace
  rw [split_on_pred_no_sep Char.isWhitespace w hw]
  simp [hne]

theorem digit_char_facts (d : Nat) (hd : d < 10) :
    (Char.ofNat (48 + d)).isDigit = true ∧ (Char.ofNat (48 + d)).toNat = 48 + d ∧
    (Char.ofNat (48 + d)) ≠ '+' ∧ (Char.ofNat (48 + d)).isWhitespace = false := by
  interval_cases d <;> exact ⟨by decide, by decide, by decide, by decide⟩

theorem u32_chars_shape (n : Nat) :
    u32_chars n ≠ [] ∧ (∀ c ∈ u32_chars n, c.isDigit = true) ∧
    (∀ c ∈ u32_chars n, c.isWhitespace = false) ∧ (u32_chars n).head? ≠ some '+' := by
  rw [u32_chars_eq]
  by_cases h0 : n = 0
  · subst h0
    decide
  · rw [if_neg h0]
    have hmem : ∀ c ∈ (Nat.digits 10 n).reverse.map (fun d => Char.ofNat (48 + d)),
        c.isDigit = true ∧ c.toNat = 48 + (c.toNat - 48) ∧ c ≠ '+' ∧ c.isWhitespace = false := by
      intro c hc
      obtain ⟨d, hd, rfl⟩ := List.mem_map.mp hc
      have hd10 : d < 10 := Nat.digits_lt_base (by omega) (List.mem_reverse.mp hd)
      obtain ⟨h1, h2, h3, h4⟩ := digit_char_facts d hd10
      exact ⟨h1, by omega, h3, h4⟩
    have hne : (Nat.digits 10 n).reverse.map (fun d => Char.ofNat (48 + d)) ≠ [] := by
      simp [Nat.digits_ne_nil_iff_ne_zero.mpr h0]
    refine ⟨hne, fun c hc => (hmem c hc).1, fun c hc => (hmem c hc).2.2.2, ?_⟩
    cases hl : (Nat.digits 10 n).reverse.map (fun d => Char.ofNat (48 + d)) with
    | nil => exact absurd hl hne
    | cons c t =>
        have := (hmem c (by rw [hl]; exact List.mem_cons_self c t)).2.2.1
        simp [this]

theorem foldl_digit_chars (ds : List Nat) (hds : ∀ d ∈ ds, d < 10) :
    ∀ acc : Nat,
      ((ds.reverse.map fun d => Char.ofNat (48 + d)).foldl
        (fun a c => a * 10 + (c.toNat - 48)) acc) =
      Nat.ofDigits 10 ds + acc * 10 ^ ds.length := by
  induction ds with
  | nil => intro acc; simp
  | cons d ds ih =>
      intro acc
      have hd10 : d < 10 := hds d (List.mem_cons_self d ds)
      obtain ⟨_, htn, _, _⟩ := digit_char_facts d hd10
      rw [List.reverse_cons, List.map_append, List.foldl_append,
        ih (fun x hx => hds x (List.mem_cons_of_mem _ hx)) acc]
      simp only [List.map_cons, List.map_nil, List.foldl_cons, List.foldl_nil, htn,
        Nat.ofDigits_cons, List.length_cons]
      ring_nf
      omega

theorem parse_u32_print (n v : Nat) (h : parse_u32 (u32_chars n) = some v) :
    v = n ∧ n < 2 ^ 32 := by
  obtain ⟨hne, hdig, _, hplus⟩ := u32_chars_shape n
  unfold parse_u32 at h
  rw [if_neg hplus] at h
  unfold parse_u32_digits at h
  rw [if_neg (by simp [List.isEmpty_iff, hne])] at h
  rw [if_pos (by rw [List.all_eq_true]; exact hdig)] at h
  have hval : (u32_chars n).foldl (fun acc c => acc * 10 + (c.toNat - 48)) 0 = n := by
    rw [u32_chars_eq]
    by_cases h0 : n = 0
    · simp [h0]
    · rw [if_neg h0]
      have := foldl_digit_chars (Nat.digits 10 n)
        (fun d hd => Nat.digits_lt_base (by omega) hd) 0
      rw [this]
      simp [Nat.ofDigits_digits]
  rw [hval] at h
  by_cases hlt : n < 2 ^ 32
  · rw [if_pos hlt] at h
    cases h
    exact ⟨rfl, hlt⟩
  · rw [if_neg hlt] at h
    exact absurd h (by simp)

theorem Square.new_inv (i : Nat) (sq : Square) (h : Square.new i = some sq) :
    sq.index = i := by
  unfold Square.new at h
  by_cases hi : i < 64
  · rw [dif_pos hi] at h
    cases h
    rfl
  · rw [dif_neg hi] at h
    exact Option.noConfusion h

theorem from_algebraic_inv (s : List Char) (sq : Square)
    (h : Square.from_algebraic s = Except.ok sq) :
    Square.to_algebraic_chars sq = s := by
  match s with
  | [] => exact Except.noConfusion h
  | [_] => exact Except.noConfusion h
  | _ :: _ :: _ :: _ => exact Except.noConfusion h
  | [c0, c1] =>
      unfold Square.from_algebraic at h
      dsimp only at h
      by_cases h0 : 97 ≤ c0.toNat ∧ c0.toNat ≤ 104
      case neg => rw [if_neg h0] at h; exact Except.noConfusion h
      rw [if_pos h0] at h
      by_cases h1 : 49 ≤ c1.toNat ∧ c1.toNat ≤ 56
      case neg => rw [if_neg h1] at h; exact Except.noConfusion h
      rw [if_pos h1] at h
      cases hnew : Square.new ((c1.toNat - 49) * 8 + (c0.toNat - 97)) with
      | none => rw [hnew] at h; exact Except.noConfusion h
      | some sq2 =>
          rw [hnew] at h
          cases h
          have hidx := Square.new_inv _ _ hnew
          unfold Square.to_algebraic_chars
          rw [hidx]
          have hmod : ((c1.toNat - 49) * 8 + (c0.toNat - 97)) % 8 = c0.toNat - 97 := by omega
          have hdiv : ((c1.toNat - 49) * 8 + (c0.toNat - 97)) / 8 = c1.toNat - 49 := by omega
          rw [hmod, hdiv]
          have e0 : 97 + (c0.toNat - 97) = c0.toNat := by omega
          have e1 : 49 + (c1.toNat - 49) = c1.toNat := by omega
          rw [e0, e1, Char.ofNat_toNat, Char.ofNat_toNat]

theorem fen_char_to_piece_inv (c : Char) (piece : Piece) (color : Color)
    (h : fen_char_to_piece c = some (piece, color)) :
    piece_to_fen_char piece color = c := by
  unfold fen_char_to_piece at h
  split at h <;> first
    | exact Option.noConfusion h
    | (cases h; rfl)

theorem fen_digit_value_inv (c : Char) (k : Nat) (h : fen_digit_value c = some k) :
    c.isDigit = true ∧ 1 ≤ k ∧ k ≤ 8 ∧ u32_chars k = [c] := by
  unfold fen_digit_value at h
  split at h <;> first
    | exact Option.noConfusion h
    | (cases h; exact ⟨by decide, by decide, by decide, by decide⟩)

theorem encode_rank_aux_skip (k : Nat) :
    ∀ (rest : List (Option (Piece × Color))) (j : Nat),
      encode_rank_aux (List.replicate k none ++ rest) j = encode_rank_aux rest (j + k) := by
  induction k with
  | zero => intro rest j; simp
  | succ k ih =>
      intro rest j
      rw [List.replicate_succ, List.cons_append]
      show encode_rank_aux (List.replicate k none ++ rest) (j + 1) = _
      rw [ih rest (j + 1)]
      congr 1
      omega

theorem encode_rank_aux_replicate (k j : Nat) :
    encode_rank_aux (List.replicate k none) j =
      if j + k > 0 then u32_chars (j + k) else [] := by
  have := encode_rank_aux_skip k [] j
  rw [List.append_nil] at this
  rw [this]
  rfl

theorem expand_rank_aux_nil_inv (f : Nat) (cells : List (Option (Piece × Color)))
    (h : expand_rank_aux [] f = Except.ok cells) : f = 8 ∧ cells = [] := by
  unfold expand_rank_aux at h
  split at h
  · rename_i h8
    cases h
    exact ⟨h8, rfl⟩
  · exact Except.noConfusion h

theorem expand_rank_aux_digit_inv (c : Char) (t : List Char) (f : Nat)
    (cells : List (Option (Piece × Color)))
    (h : expand_rank_aux (c :: t) f = Except.ok cells) (hd : c.isDigit = true) :
    ∃ k rest, fen_digit_value c = some k ∧ f + k ≤ 8 ∧
      expand_rank_aux t (f + k) = Except.ok rest ∧
      cells = List.replicate k none ++ rest := by
  unfold expand_rank_aux at h
  by_cases hf : f ≥ 8
  · rw [if_pos hf] at h
    exact Except.noConfusion h
  · rw [if_neg hf, if_pos hd] at h
    cases hval : fen_digit_value c with
    | none => rw [hval] at h; exact Except.noConfusion h
    | some k =>
        rw [hval] at h
        dsimp only at h
        by_cases hover : f + k > 8
        · rw [if_pos hover] at h
          exact Except.noConfusion h
        · rw [if_neg hover] at h
          cases hrest : expand_rank_aux t (f + k) with
          | error e => rw [hrest] at h; exact Except.noConfusion h
          | ok rest =>
              rw [hrest] at h
              cases h
              exact ⟨k, rest, rfl, by omega, hrest, rfl⟩

theorem expand_rank_aux_piece_inv (c : Char) (t : List Char) (f : Nat)
    (cells : List (Option (Piece × Color)))
    (h : expand_rank_aux (c :: t) f = Except.ok cells) (hd : c.isDigit = false) :
    ∃ pc rest, fen_char_to_piece c = some pc ∧
      expand_rank_aux t (f + 1) = Except.ok rest ∧
      cells = some pc :: rest := by
  unfold expand_rank_aux at h
  by_cases hf : f ≥ 8
  · rw [if_pos hf] at h
    exact Except.noConfusion h
  · rw [if_neg hf] at h
    rw [if_neg (by simp [hd])] at h
    cases hpc : fen_char_to_piece c with
    | none => rw [hpc] at h; exact Except.noConfusion h
    | some pc =>
        rw [hpc] at h
        dsimp only at h
        cases hrest : expand_rank_aux t (f + 1) with
        | error e => rw [hrest] at h; exact Except.noConfusion h
        | ok rest =>
            rw [hrest] at h
            cases h
            exact ⟨pc, rest, rfl, rfl, rfl⟩

theorem minimal_digit_runs_tail (c : Char) (cs : List Char)
    (h : minimal_digit_runs (c :: cs) = true) : minimal_digit_runs cs = true := by
  cases cs with
  | nil => rfl
  | cons c2 t =>
      unfold minimal_digit_runs at h
      exact (Bool.and_eq_true_iff.mp h).2

theorem minimal_digit_runs_head (c c2 : Char) (t : List Char)
    (h : minimal_digit_runs (c :: c2 :: t) = true) (hd : c.isDigit = true) :
    c2.isDigit = false := by
  unfold minimal_digit_runs at h
  have h1 := (Bool.and_eq_true_iff.mp h).1
  rw [hd] at h1
  simp at h1
  exact h1

/-- The round trip of one rank: re-encoding the cells produced by a
successful expansion of a minimal-digit-run rank returns the rank. -/
theorem expand_encode_rank (cs : List Char) :
    ∀ (file : Nat) (cells : List (Option (Piece × Color))),
      expand_rank_aux cs file = Except.ok cells →
      minimal_digit_runs cs = true →
      encode_rank_aux cells 0 = cs := by
  induction cs with
  | nil =>
      intro file cells h _
      obtain ⟨-, rfl⟩ := expand_rank_aux_nil_inv file cells h
      rfl
  | cons c cs ih =>
      intro file cells h hmin
      by_cases hd : c.isDigit = true
      · obtain ⟨k, rest, hval, hbound, hrest, rfl⟩ := expand_rank_aux_digit_inv c cs file cells h hd
        obtain ⟨-, hk1, -, hkc⟩ := fen_digit_value_inv c k hval
        cases cs with
        | nil =>
            obtain ⟨-, rfl⟩ := expand_rank_aux_nil_inv _ _ hrest
            rw [List.append_nil, encode_rank_aux_replicate k 0]
            rw [if_pos (by omega)]
            simpa using hkc
        | cons c2 t =>
            have hd2 : c2.isDigit = false := minimal_digit_runs_head c c2 t hmin hd
            obtain ⟨pc, rest2, hpc, hrest2, rfl⟩ :=
              expand_rank_aux_piece_inv c2 t (file + k) _ hrest hd2
            have hih := ih (file + k) (some pc :: rest2) hrest (minimal_digit_runs_tail c _ hmin)
            have hstep0 : encode_rank_aux (some pc :: rest2) 0 =
                piece_to_fen_char pc.1 pc.2 :: encode_rank_aux rest2 0 := by
              cases pc
              simp [encode_rank_aux]
            have hstepk : encode_rank_aux (some pc :: rest2) (0 + k) =
                u32_chars (0 + k) ++ piece_to_fen_char pc.1 pc.2 :: encode_rank_aux rest2 0 := by
              cases pc
              simp only [encode_rank_aux]
              rw [if_pos (by omega)]
            rw [encode_rank_aux_skip k (some pc :: rest2) 0, hstepk]
            rw [hstep0] at hih
            rw [show (0 : Nat) + k = k by omega, hkc, hih]
            rfl
      · have hdf : c.isDigit = false := by simpa using hd
        obtain ⟨pc, rest, hpc, hrest, rfl⟩ := expand_rank_aux_piece_inv c cs file cells h hdf
        have hih := ih (file + 1) rest hrest (minimal_digit_runs_tail c _ hmin)
        have hstep0 : encode_rank_aux (some pc :: rest) 0 =
            piece_to_fen_char pc.1 pc.2 :: encode_rank_aux rest 0 := by
          cases pc
          simp [encode_rank_aux]
        rw [hstep0, hih, fen_char_to_piece_inv c pc.1 pc.2 (by rw [hpc])]

theorem list_eight {α : Type} (l : List α) (h : l.length = 8) :
    ∃ a0 a1 a2 a3 a4 a5 a6 a7 : α, l = [a0, a1, a2, a3, a4, a5, a6, a7] := by
  rcases l with _ | ⟨a0, _ | ⟨a1, _ | ⟨a2, _ | ⟨a3, _ | ⟨a4, _ | ⟨a5, _ | ⟨a6, _ | ⟨a7, _ | ⟨a8, t⟩⟩⟩⟩⟩⟩⟩⟩⟩ <;>
    first
      | exact ⟨a0, a1, a2, a3, a4, a5, a6, a7, rfl⟩
      | simp at h

theorem flatten_getD (rows : List (List (Option (Piece × Color)))) :
    ∀ (i f : Nat), (∀ r ∈ rows, r.length = 8) → f < 8 →
      rows.flatten.getD (i * 8 + f) none = (rows.getD i []).getD f none := by
  induction rows with
  | nil => intro i f _ _; simp [List.getD]
  | cons r rs ih =>
      intro i f hall hf
      have hr : r.length = 8 := hall r (List.mem_cons_self r rs)
      cases i with
      | zero =>
          rw [List.flatten_cons]
          rw [List.getD_append _ _ _ _ (by omega)]
          simp
      | succ i =>
          rw [List.flatten_cons]
          have hidx : (i + 1) * 8 + f = r.length + (i * 8 + f) := by omega
          rw [hidx, List.getD_append_right _ _ _ _ (by omega)]
          have hsub : r.length + (i * 8 + f) - r.length = i * 8 + f := by omega
          rw [hsub, ih i f (fun x hx => hall x (List.mem_cons_of_mem _ hx)) hf]
          simp

theorem range_map_getD {α : Type} (l : List α) (d : α) (h : l.length = 8) :
    (List.range 8).map (fun f => l.getD f d) = l := by
  obtain ⟨a0, a1, a2, a3, a4, a5, a6, a7, rfl⟩ := list_eight l h
  rfl

theorem board_row_flatten (rows : List (List (Option (Piece × Color)))) (k : Nat)
    (hall : ∀ r ∈ rows, r.length = 8) (h8 : (rows.getD k []).length = 8) :
    board_row (Board.mk rows.flatten) k = rows.getD k [] := by
  unfold board_row
  have hmapeq : (List.range 8).map
        (fun file => (Board.mk rows.flatten).squares.getD (k * 8 + file) none) =
      (List.range 8).map (fun file => (rows.getD k []).getD file none) := by
    apply List.map_congr_left
    intro f hf
    exact flatten_getD rows k f hall (List.mem_range.mp hf)
  rw [hmapeq, range_map_getD _ none h8]

theorem expand_ranks_cons_inv (r : List Char) (rs : List (List Char))
    (rows : List (List (Option (Piece × Color))))
    (h : expand_ranks (r :: rs) = Except.ok rows) :
    ∃ cells rest, expand_rank r = Except.ok cells ∧ expand_ranks rs = Except.ok rest ∧
      rows = cells :: rest := by
  unfold expand_ranks at h
  cases h0 : expand_rank r with
  | error e => rw [h0] at h; exact Except.noConfusion h
  | ok cells =>
      rw [h0] at h
      dsimp only at h
      cases h1 : expand_ranks rs with
      | error e => rw [h1] at h; exact Except.noConfusion h
      | ok rest =>
          rw [h1] at h
          dsimp only at h
          cases h
          exact ⟨cells, rest, rfl, rfl, rfl⟩

theorem parse_active_color_inv (s : List Char) (stm : Color)
    (h : parse_active_color s = Except.ok stm) :
    (if stm = Color.White then ['w'] else ['b']) = s := by
  unfold parse_active_color at h
  by_cases h1 : s = ['w']
  · rw [if_pos h1] at h
    cases h
    simp [h1]
  · rw [if_neg h1] at h
    by_cases h2 : s = ['b']
    · rw [if_pos h2] at h
      cases h
      simp [h2]
    · rw [if_neg h2] at h
      exact Except.noConfusion h

theorem parse_en_passant_none_inv (s : List Char)
    (h : parse_en_passant s = Except.ok none) : (['-'] : List Char) = s := by
  unfold parse_en_passant at h
  by_cases hm : s = ['-']
  · exact hm.symm
  · rw [if_neg hm] at h
    cases hsq : Square.from_algebraic s with
    | error e => rw [hsq] at h; exact Except.noConfusion h
    | ok sq =>
        rw [hsq] at h
        dsimp only at h
        exact absurd h (by simp)

theorem parse_en_passant_some_inv (s : List Char) (sq : Square)
    (h : parse_en_passant s = Except.ok (some sq)) : sq.to_algebraic_chars = s := by
  unfold parse_en_passant at h
  by_cases hm : s = ['-']
  · rw [if_pos hm] at h
    exact absurd h (by simp)
  · rw [if_neg hm] at h
    cases hsq : Square.from_algebraic s with
    | error e => rw [hsq] at h; exact Except.noConfusion h
    | ok sq2 =>
        rw [hsq] at h
        dsimp only at h
        injection h with h2
        injection h2 with h3
        subst h3
        exact from_algebraic_inv s sq2 hsq

theorem canonical_castling_field_props (f : List Char) (hm : f ∈ canonical_castling_fields) :
    f ≠ [] ∧ ∀ c ∈ f, c.isWhitespace = false := by
  simp only [canonical_castling_fields, List.mem_cons, List.not_mem_nil, or_false] at hm
  rcases hm with rfl | rfl | rfl | rfl | rfl | rfl | rfl | rfl | rfl | rfl | rfl | rfl | rfl | rfl | rfl | rfl <;>
    exact ⟨by decide, by decide⟩

theorem canonical_castling_round (f : List Char) (hm : f ∈ canonical_castling_fields)
    (cr : CastlingRights) (h : parse_castling_rights f = Except.ok cr) :
    encode_castling cr = f := by
  simp only [canonical_castling_fields, List.mem_cons, List.not_mem_nil, or_false] at hm
  rcases hm with rfl | rfl | rfl | rfl | rfl | rfl | rfl | rfl | rfl | rfl | rfl | rfl | rfl | rfl | rfl | rfl <;>
    (injection h with h2; subst h2; decide)

theorem no_slash (r : List Char) (hr : '/' ∉ r) :
    ∀ c ∈ r, decide (c = '/') = false := by
  intro c hc
  simp only [decide_eq_false_iff_not]
  rintro rfl
  exact hr hc

/-- C4: printing the position parsed from a canonical FEN string returns
the original string - for six single-space-separated fields, eight
'/'-separated ranks with minimal digit runs, a castling field that is "-"
or an ordered subsequence of KQkq, and counters written as canonical
decimal numerals, position_to_fen inverts parse_fen. -/
theorem canonical_fen_round_trip (s : String) (p : Position)
    (hc : canonical_fen s) (h : parse_fen s = Except.ok p) :
    position_to_fen p = s := by
  obtain ⟨ranks, g1, g2, g3, n4, n5, hdata, hlen8, hranks, hg1ne, hg1ws, hg2mem, hg3ne, hg3ws⟩ := hc
  obtain ⟨r0, r1, r2, r3, r4, r5, r6, r7, rfl⟩ := list_eight ranks hlen8
  have hr0 := hranks r0 (by simp)
  have hr1 := hranks r1 (by simp)
  have hr2 := hranks r2 (by simp)
  have hr3 := hranks r3 (by simp)
  have hr4 := hranks r4 (by simp)
  have hr5 := hranks r5 (by simp)
  have hr6 := hranks r6 (by simp)
  have hr7 := hranks r7 (by simp)
  have hplac : (([r0, r1, r2, r3, r4, r5, r6, r7] : List (List Char)).intersperse ['/']).flatten =
      r0 ++ '/' :: (r1 ++ '/' :: (r2 ++ '/' :: (r3 ++ '/' :: (r4 ++ '/' :: (r5 ++ '/' :: (r6 ++ '/' :: r7)))))) := by
    simp [List.intersperse]
  rw [hplac] at hdata
  have hdata2 : s.data =
      (r0 ++ '/' :: (r1 ++ '/' :: (r2 ++ '/' :: (r3 ++ '/' :: (r4 ++ '/' :: (r5 ++ '/' :: (r6 ++ '/' :: r7))))))) ++
        ' ' :: (g1 ++ ' ' :: (g2 ++ ' ' :: (g3 ++ ' ' :: (u32_chars n4 ++ ' ' :: u32_chars n5)))) := by
    rw [hdata]
    simp only [List.append_assoc, List.cons_append]
  have hpne : r0 ++ '/' :: (r1 ++ '/' :: (r2 ++ '/' :: (r3 ++ '/' :: (r4 ++ '/' :: (r5 ++ '/' :: (r6 ++ '/' :: r7)))))) ≠ ([] : List Char) := by
    simp
  have hpws : ∀ c ∈ r0 ++ '/' :: (r1 ++ '/' :: (r2 ++ '/' :: (r3 ++ '/' :: (r4 ++ '/' :: (r5 ++ '/' :: (r6 ++ '/' :: r7)))))),
      c.isWhitespace = false := by
    simp only [List.forall_mem_append, List.forall_mem_cons]
    exact ⟨hr0.2.2.1, by decide, hr1.2.2.1, by decide, hr2.2.2.1, by decide, hr3.2.2.1,
      by decide, hr4.2.2.1, by decide, hr5.2.2.1, by decide, hr6.2.2.1, by decide, hr7.2.2.1⟩
  obtain ⟨hg2ne, hg2ws⟩ := canonical_castling_field_props g2 hg2mem
  obtain ⟨hu4ne, -, hu4ws, -⟩ := u32_chars_shape n4
  obtain ⟨hu5ne, -, hu5ws, -⟩ := u32_chars_shape n5
  have hsw : split_whitespace s.data =
      [r0 ++ '/' :: (r1 ++ '/' :: (r2 ++ '/' :: (r3 ++ '/' :: (r4 ++ '/' :: (r5 ++ '/' :: (r6 ++ '/' :: r7)))))),
       g1, g2, g3, u32_chars n4, u32_chars n5] := by
    rw [hdata2, split_whitespace_word _ _ hpne hpws,
      split_whitespace_word _ _ hg1ne hg1ws,
      split_whitespace_word _ _ hg2ne hg2ws,
      split_whitespace_word _ _ hg3ne hg3ws,
      split_whitespace_word _ _ hu4ne hu4ws,
      split_whitespace_last _ hu5ne hu5ws]
  unfold parse_fen at h
  split at h
  case h_2 => exact absurd h (by simp)
  case h_1 f0 f1 f2 f3 f4 f5 hsplit =>
  rw [hsw] at hsplit
  injection hsplit with e0 hsplit
  injection hsplit with e1 hsplit
  injection hsplit with e2 hsplit
  injection hsplit with e3 hsplit
  injection hsplit with e4 hsplit
  injection hsplit with e5 hsplit
  subst e0
  subst e1
  subst e2
  subst e3
  subst e4
  subst e5
  split at h <;> try exact Except.noConfusion h
  rename_i board hb
  split at h <;> try exact Except.noConfusion h
  rename_i stm hac
  split at h <;> try exact Except.noConfusion h
  rename_i cr hcr
  split at h <;> try exact Except.noConfusion h
  rename_i ep hep
  split at h <;> try exact Except.noConfusion h
  rename_i hm hhm
  split at h <;> try exact Except.noConfusion h
  rename_i fm hfm
  split at h <;> try exact Except.noConfusion h
  cases h
  obtain ⟨e4b, -⟩ := parse_u32_print n4 hm hhm
  subst e4b
  obtain ⟨e5b, -⟩ := parse_u32_print n5 fm hfm
  subst e5b
  have hsplit2 : split_on_pred (fun c => c = '/')
      (r0 ++ '/' :: (r1 ++ '/' :: (r2 ++ '/' :: (r3 ++ '/' :: (r4 ++ '/' :: (r5 ++ '/' :: (r6 ++ '/' :: r7))))))) =
      [r0, r1, r2, r3, r4, r5, r6, r7] := by
    rw [split_on_pred_word _ r0 _ '/' (no_slash r0 hr0.2.1) (by decide),
      split_on_pred_word _ r1 _ '/' (no_slash r1 hr1.2.1) (by decide),
      split_on_pred_word _ r2 _ '/' (no_slash r2 hr2.2.1) (by decide),
      split_on_pred_word _ r3 _ '/' (no_slash r3 hr3.2.1) (by decide),
      split_on_pred_word _ r4 _ '/' (no_slash r4 hr4.2.1) (by decide),
      split_on_pred_word _ r5 _ '/' (no_slash r5 hr5.2.1) (by decide),
      split_on_pred_word _ r6 _ '/' (no_slash r6 hr6.2.1) (by decide),
      split_on_pred_no_sep _ r7 (no_slash r7 hr7.2.1)]
  unfold parse_piece_placement at hb
  rw [hsplit2] at hb
  rw [if_neg (by simp)] at hb
  cases hex : expand_ranks [r0, r1, r2, r3, r4, r5, r6, r7] with
  | error e => rw [hex] at hb; exact Except.noConfusion hb
  | ok rows =>
    rw [hex] at hb
    dsimp only at hb
    obtain ⟨c0, rows1, hx0, hex1, rfl⟩ := expand_ranks_cons_inv _ _ _ hex
    obtain ⟨c1, rows2, hx1, hex2, rfl⟩ := expand_ranks_cons_inv _ _ _ hex1
    obtain ⟨c2, rows3, hx2, hex3, rfl⟩ := expand_ranks_cons_inv _ _ _ hex2
    obtain ⟨c3, rows4, hx3, hex4, rfl⟩ := expand_ranks_cons_inv _ _ _ hex3
    obtain ⟨c4, rows5, hx4, hex5, rfl⟩ := expand_ranks_cons_inv _ _ _ hex4
    obtain ⟨c5, rows6, hx5, hex6, rfl⟩ := expand_ranks_cons_inv _ _ _ hex5
    obtain ⟨c6, rows7, hx6, hex7, rfl⟩ := expand_ranks_cons_inv _ _ _ hex6
    obtain ⟨c7, rows8, hx7, hex8, rfl⟩ := expand_ranks_cons_inv _ _ _ hex7
    have hnil : rows8 = [] := by
      injection hex8 with e
      exact e.symm
    subst hnil
    injection hb with hbe
    subst hbe
    have hx0' : expand_rank_aux r0 0 = Except.ok c0 := hx0
    have hx1' : expand_rank_aux r1 0 = Except.ok c1 := hx1
    have hx2' : expand_rank_aux r2 0 = Except.ok c2 := hx2
    have hx3' : expand_rank_aux r3 0 = Except.ok c3 := hx3
    have hx4' : expand_rank_aux r4 0 = Except.ok c4 := hx4
    have hx5' : expand_rank_aux r5 0 = Except.ok c5 := hx5
    have hx6' : expand_rank_aux r6 0 = Except.ok c6 := hx6
    have hx7' : expand_rank_aux r7 0 = Except.ok c7 := hx7
    have l0 : c0.length = 8 := by have := (expand_rank_aux_length r0 0 c0 hx0').2; omega
    have l1 : c1.length = 8 := by have := (expand_rank_aux_length r1 0 c1 hx1').2; omega
    have l2 : c2.length = 8 := by have := (expand_rank_aux_length r2 0 c2 hx2').2; omega
    have l3 : c3.length = 8 := by have := (expand_rank_aux_length r3 0 c3 hx3').2; omega
    have l4 : c4.length = 8 := by have := (expand_rank_aux_length r4 0 c4 hx4').2; omega
    have l5 : c5.length = 8 := by have := (expand_rank_aux_length r5 0 c5 hx5').2; omega
    have l6 : c6.length = 8 := by have := (expand_rank_aux_length r6 0 c6 hx6').2; omega
    have l7 : c7.length = 8 := by have := (expand_rank_aux_length r7 0 c7 hx7').2; omega
    have e0 : encode_rank_aux c0 0 = r0 := expand_encode_rank r0 0 c0 hx0' hr0.2.2.2
    have e1 : encode_rank_aux c1 0 = r1 := expand_encode_rank r1 0 c1 hx1' hr1.2.2.2
    have e2 : encode_rank_aux c2 0 = r2 := expand_encode_rank r2 0 c2 hx2' hr2.2.2.2
    have e3 : encode_rank_aux c3 0 = r3 := expand_encode_rank r3 0 c3 hx3' hr3.2.2.2
    have e4 : encode_rank_aux c4 0 = r4 := expand_encode_rank r4 0 c4 hx4' hr4.2.2.2
    have e5 : encode_rank_aux c5 0 = r5 := expand_encode_rank r5 0 c5 hx5' hr5.2.2.2
    have e6 : encode_rank_aux c6 0 = r6 := expand_encode_rank r6 0 c6 hx6' hr6.2.2.2
    have e7 : encode_rank_aux c7 0 = r7 := expand_encode_rank r7 0 c7 hx7' hr7.2.2.2
    have hrev : ([c0, c1, c2, c3, c4, c5, c6, c7] : List (List (Option (Piece × Color)))).reverse =
        [c7, c6, c5, c4, c3, c2, c1, c0] := by rfl
    have hall : ∀ r ∈ ([c7, c6, c5, c4, c3, c2, c1, c0] : List (List (Option (Piece × Color)))),
        r.length = 8 := by
      intro r hr
      simp only [List.mem_cons, List.not_mem_nil, or_false] at hr
      rcases hr with rfl | rfl | rfl | rfl | rfl | rfl | rfl | rfl <;> assumption
    have hb7 : board_row (Board.mk ([c7, c6, c5, c4, c3, c2, c1, c0] :
        List (List (Option (Piece × Color)))).flatten) 7 = c0 :=
      board_row_flatten [c7, c6, c5, c4, c3, c2, c1, c0] 7 hall l0
    have hb6 : board_row (Board.mk ([c7, c6, c5, c4, c3, c2, c1, c0] :
        List (List (Option (Piece × Color)))).flatten) 6 = c1 :=
      board_row_flatten [c7, c6, c5, c4, c3, c2, c1, c0] 6 hall l1
    have hb5 : board_row (Board.mk ([c7, c6, c5, c4, c3, c2, c1, c0] :
        List (List (Option (Piece × Color)))).flatten) 5 = c2 :=
      board_row_flatten [c7, c6, c5, c4, c3, c2, c1, c0] 5 hall l2
    have hb4 : board_row (Board.mk ([c7, c6, c5, c4, c3, c2, c1, c0] :
        List (List (Option (Piece × Color)))).flatten) 4 = c3 :=
      board_row_flatten [c7, c6, c5, c4, c3, c2, c1, c0] 4 hall l3
    have hb3 : board_row (Board.mk ([c7, c6, c5, c4, c3, c2, c1, c0] :
        List (List (Option (Piece × Color)))).flatten) 3 = c4 :=
      board_row_flatten [c7, c6, c5, c4, c3, c2, c1, c0] 3 hall l4
    have hb2 : board_row (Board.mk ([c7, c6, c5, c4, c3, c2, c1, c0] :
        List (List (Option (Piece × Color)))).flatten) 2 = c5 :=
      board_row_flatten [c7, c6, c5, c4, c3, c2, c1, c0] 2 hall l5
    have hb1 : board_row (Board.mk ([c7, c6, c5, c4, c3, c2, c1, c0] :
        List (List (Option (Piece × Color)))).flatten) 1 = c6 :=
      board_row_flatten [c7, c6, c5, c4, c3, c2, c1, c0] 1 hall l6
    have hb0 : board_row (Board.mk ([c7, c6, c5, c4, c3, c2, c1, c0] :
        List (List (Option (Piece × Color)))).flatten) 0 = c7 :=
      board_row_flatten [c7, c6, c5, c4, c3, c2, c1, c0] 0 hall l7
    have hencp : encode_placement (Board.mk (([c0, c1, c2, c3, c4, c5, c6, c7] :
        List (List (Option (Piece × Color)))).reverse.flatten)) =
        r0 ++ '/' :: (r1 ++ '/' :: (r2 ++ '/' :: (r3 ++ '/' :: (r4 ++ '/' :: (r5 ++ '/' :: (r6 ++ '/' :: r7)))))) := by
      rw [hrev]
      unfold encode_placement
      simp only [List.map_cons, List.map_nil]
      rw [hb7, hb6, hb5, hb4, hb3, hb2, hb1, hb0, e0, e1, e2, e3, e4, e5, e6, e7]
      exact hplac
    have hact := parse_active_color_inv g1 stm hac
    have hcast := canonical_castling_round g2 hg2mem cr hcr
    have hs : String.mk s.data = s := rfl
    dsimp only [position_to_fen, finalize_position, assemble_position]
    rw [hencp, hact, hcast]
    cases ep with
    | none =>
        dsimp only
        rw [parse_en_passant_none_inv g3 hep, ← hs, hdata2]
        simp only [List.append_assoc, List.cons_append]
    | some sq =>
        dsimp only
        rw [parse_en_passant_some_inv g3 sq hep, ← hs, hdata2]
        simp only [List.append_assoc, List.cons_append]

/-- Witness for C4: the starting FEN is canonical, parses successfully,
and printing the parsed position returns it verbatim. -/
theorem canonical_fen_round_trip_witness :
    canonical_fen STARTING_FEN ∧ parse_fen STARTING_FEN = Except.ok start_position ∧
    position_to_fen start_position = STARTING_FEN := by
  have hparse : parse_fen STARTING_FEN = Except.ok start_position := by rfl
  have hc : canonical_fen STARTING_FEN :=
    ⟨[['r', 'n', 'b', 'q', 'k', 'b', 'n', 'r'], ['p', 'p', 'p', 'p', 'p', 'p', 'p', 'p'],
      ['8'], ['8'], ['8'], ['8'],
      ['P', 'P', 'P', 'P', 'P', 'P', 'P', 'P'], ['R', 'N', 'B', 'Q', 'K', 'B', 'N', 'R']],
     ['w'], ['K', 'Q', 'k', 'q'], ['-'], 0, 1,
     by decide, by decide, by decide, by decide, by decide, by decide, by decide, by decide⟩
  exact ⟨hc, hparse, canonical_fen_round_trip STARTING_FEN start_position hc hparse⟩
